import Mathlib

/-!
Terrain conversion (`Tools/ToolsRig/TerrainConversion.cpp`)

A shallow embedding of the DEM-to-uber-surface converter and of the starter-cell
planner, followed by the properties established about them.

Conventions of the embedding

* A C++ `unsigned` is a natural number below `2 ^ 32`; every arithmetic
  operation the source performs on `unsigned` operands is reduced modulo
  `2 ^ 32` here (`addU32`, `subU32`, `mulU32`, `shlU32`).
* Samples are values of an arbitrary type `α`; the source only moves them
  (`std::copy`) or overwrites them with `0.f` (`std::fill`), it never computes
  with them.  The value `0.f` is the parameter `zero`.
* Input and output sample arrays are functions from the element index to the
  sample, so that an element index computed by the source addresses the same
  element here.
* The effects of a run are recorded, in program order, as a list of `Event`s.
-/

namespace ToolsRig

/-! ## 32-bit unsigned arithmetic -/

/-- The sum `a + b` of two `unsigned` operands. -/
def addU32 (a b : Nat) : Nat := (a + b) % 4294967296

/-- The difference `a - b` of two `unsigned` operands. -/
def subU32 (a b : Nat) : Nat := (a + (4294967296 - b % 4294967296)) % 4294967296

/-- The product `a * b` of two `unsigned` operands. -/
def mulU32 (a b : Nat) : Nat := (a * b) % 4294967296

/-- The shift `a << s` converted to `unsigned`.  C++ leaves a shift by 32 or more
undefined; the embedding gives it the value 0 (all bits shifted out), and every
property below that depends on the shift restricts `s` to at most 31. -/
def shlU32 (a s : Nat) : Nat := if s < 32 then (a * 2 ^ s) % 4294967296 else 0

/-- A pair of `unsigned` values (`UInt2`): index 0 is the width, index 1 the height. -/
abbrev UInt2 := Nat × Nat

/-! ## Padding arithmetic of `ConvertDEMData` (lines 118-122) -/

/-- The `cellWidthInNodes = 1 << (destCellTreeDepth-1)` of line 118. -/
def cellWidthInNodes (destCellTreeDepth : Nat) : Nat :=
  shlU32 1 (subU32 destCellTreeDepth 1)

/-- The `clampingDim = destNodeDims * cellWidthInNodes` of line 119. -/
def clampingDim (destNodeDims destCellTreeDepth : Nat) : Nat :=
  mulU32 destNodeDims (cellWidthInNodes destCellTreeDepth)

/-- One of the two statements of lines 121-122:
`if ((d % clampingDim) != 0) d += clampingDim - (d % clampingDim);`.
For `clampingDim = 0` the C++ remainder is undefined; Lean's `d % 0 = d` is used
there and no property below relies on it. -/
def padDim (d clampingDim : Nat) : Nat :=
  if d % clampingDim ≠ 0 then addU32 d (subU32 clampingDim (d % clampingDim)) else d

/-- The `finalDims` of lines 120-122. -/
def finalDims (dims : UInt2) (clampingDim : Nat) : UInt2 :=
  (padDim dims.1 clampingDim, padDim dims.2 clampingDim)


/-! ## The source probe `DEMConfig` (lines 46-88) -/

/-- Characters matched by the regular-expression class `\s`. -/
def isSpaceChar (c : Char) : Bool :=
  c = ' ' || c = '\t' || c = '\n' || c = '\r' || c = Char.ofNat 11 || c = Char.ofNat 12

/-- Characters the regular-expression `.` refuses, and after which `^` holds. -/
def isLineTerminator (c : Char) : Bool := c = '\n' || c = '\r'

/-- One attempt to match `(\S+)\s+(.*)` at the head of `s`.  The longest run of
non-blank characters is group 1; it has to be followed by a blank (a shorter
run would be followed by a non-blank character, so backtracking cannot help);
`\s+` takes the longest run of blanks, and group 2 runs to the next line
terminator.  The result is group 1, the blanks, group 2 and the unread text. -/
def matchHere (s : List Char) : Option (List Char × List Char × List Char × List Char) :=
  let name := s.takeWhile (fun c => !isSpaceChar c)
  let afterName := s.dropWhile (fun c => !isSpaceChar c)
  let gap := afterName.takeWhile isSpaceChar
  let afterGap := afterName.dropWhile isSpaceChar
  if name = [] ∨ gap = [] then none
  else some (name, gap, afterGap.takeWhile (fun c => !isLineTerminator c),
              afterGap.dropWhile (fun c => !isLineTerminator c))

/-- Whether `^` holds at a position whose preceding character is `prev`
(`none` at the very start of the text).  The anchor is taken per line, as in the
regular-expression library the project is built with. -/
def atLineStart (prev : Option Char) : Bool :=
  match prev with
  | none => true
  | some c => isLineTerminator c

/-- The successive matches of `^(\S+)\s+(.*)` that the `sregex_token_iterator`
of lines 67-68 walks through, as pairs (capture group 1, capture group 2).  Each
search looks for the leftmost match starting at or after the end of the previous
one.  `fuel` bounds the number of positions looked at; the length of the text
plus one is enough. -/
def regexTokens : Nat → Option Char → List Char → List (List Char × List Char)
  | 0, _, _ => []
  | _ + 1, _, [] => []
  | fuel + 1, prev, c :: cs =>
    if atLineStart prev then
      match matchHere (c :: cs) with
      | some (name, gap, value, rest) =>
        (name, value) :: regexTokens fuel (name ++ gap ++ value).getLast? rest
      | none => regexTokens fuel (some c) cs
    else regexTokens fuel (some c) cs

/-- The part of a character array that a C string function sees (`c_str()`):
everything before the first NUL. -/
def cStr (s : List Char) : List Char := s.takeWhile (fun c => c != Char.ofNat 0)

/-- Modelled from the spec: `XlCompareStringI` (Utility/StringUtils, not among
the sources) compares two C strings without regard to letter case ("Parsing is
case-insensitive on token names"); 0 means equal. -/
def XlCompareStringI (a b : List Char) : Int :=
  if (cStr a).map Char.toLower = (cStr b).map Char.toLower then 0 else 1

/-- Conversion of an `int` (the result of `XlAtoI32`) to `unsigned`. -/
def intToU32 (i : Int) : Nat := (i % 4294967296).toNat

/-- Body of the loop of lines 69-77 for one (paramName, paramValue) pair.
`XlAtoI32` (Utility/StringUtils, not among the sources) is a parameter. -/
def demStep (XlAtoI32 : List Char → Int) (dims : UInt2) (p : List Char × List Char) : UInt2 :=
  let d1 : UInt2 :=
    if XlCompareStringI p.1 "ncols".toList = 0 then (intToU32 (XlAtoI32 (cStr p.2)), dims.2)
    else dims
  if XlCompareStringI p.1 "nrows".toList = 0 then (d1.1, intToU32 (XlAtoI32 (cStr p.2)))
  else d1

/-- Lines 58-77: the dimensions collected from the text of the `.hdr` file. -/
def parseHdr (XlAtoI32 : List Char → Int) (text : List Char) : UInt2 :=
  (regexTokens (text.length + 1) none text).foldl (demStep XlAtoI32) (0, 0)

/-- A line `<token> <value>` of a header text, cut into its four parts: the
token, the blanks between the token and the value (one space, several spaces,
tabs), the value, which runs to the end of the line, and the line end (`\n`,
`\r\n`, possibly followed by empty lines, or nothing at the end of the text). -/
structure HdrLine where
  token : List Char
  gap : List Char
  value : List Char
  eol : List Char

/-- A header line is well formed when the token is a non-empty run of non-blank
characters, the gap a non-empty run of blanks other than line terminators, the
value is non-empty, starts with a non-blank character and holds no line
terminator, and the line end is made of line terminators only. -/
def wellFormedLine (l : HdrLine) : Bool :=
  !l.token.isEmpty && l.token.all (fun c => !isSpaceChar c)
    && !l.gap.isEmpty && l.gap.all (fun c => isSpaceChar c && !isLineTerminator c)
    && (match l.value with
        | [] => false
        | v :: _ => !isSpaceChar v)
    && l.value.all (fun c => !isLineTerminator c)
    && l.eol.all isLineTerminator

/-- A header text is made of well-formed lines when every line is well formed
and every line but the last ends with a newline character; the last line may end
with or without one. -/
def wellFormedHeader : List HdrLine → Bool
  | [] => true
  | [l] => wellFormedLine l
  | l :: l2 :: ls =>
    wellFormedLine l && decide (l.eol.getLast? = some '\n') && wellFormedHeader (l2 :: ls)

/-- The text of a header file made of the given lines. -/
def hdrTextOf : List HdrLine → List Char
  | [] => []
  | l :: ls => l.token ++ (l.gap ++ (l.value ++ (l.eol ++ hdrTextOf ls)))

/-- What `TIFFOpen` gives access to.  `imageWidth`/`imageLength` are the values of
the two tags (`none` when `TIFFGetField` does not find the tag and leaves its
argument alone); `rowsPerStrip` is the value left in `rowsperstrip` by
`TIFFGetFieldDefaulted`; `stripCount` is `TIFFNumberOfStrips`. -/
structure TiffFile where
  imageWidth : Option Nat
  imageLength : Option Nat
  rowsPerStrip : Nat
  stripCount : Nat

/-- The input designated by the path `input`, as far as the converter looks at
it: the extension found by `XlExtension` (`none` when there is none), the text
of the sibling `.hdr` file (empty when it cannot be loaded), the container
`TIFFOpen` returns (`none` when it cannot be opened), and whether `input` can be
mapped for reading (`inputFileData.IsValid()`). -/
structure InputFile where
  ext : Option (List Char)
  hdrText : List Char
  tiff : Option TiffFile
  dataValid : Bool

/-- The test `ext && (!XlCompareStringI(ext, "hdr") || !XlCompareStringI(ext, "flt"))`. -/
def isHdrExt (ext : Option (List Char)) : Bool :=
  match ext with
  | none => false
  | some e => XlCompareStringI e "hdr".toList = 0 || XlCompareStringI e "flt".toList = 0

/-- The test `ext && (!XlCompareStringI(ext, "tif") || !XlCompareStringI(ext, "tiff"))`. -/
def isTifExt (ext : Option (List Char)) : Bool :=
  match ext with
  | none => false
  | some e => XlCompareStringI e "tif".toList = 0 || XlCompareStringI e "tiff".toList = 0

/-- The constructor `DEMConfig::DEMConfig` (lines 46-88); the result is `_dims`. -/
def DEMConfig (XlAtoI32 : List Char → Int) (input : InputFile) : UInt2 :=
  if isHdrExt input.ext then parseHdr XlAtoI32 input.hdrText
  else if isTifExt input.ext then
    match input.tiff with
    | some tif => ((tif.imageWidth.getD 0) % 4294967296, (tif.imageLength.getD 0) % 4294967296)
    | none => (0, 0)
  else (0, 0)

/-! ## The uber-surface header (lines 90-98) -/

/-- The class `TerrainUberHeader`: four `unsigned` fields, 16 bytes. -/
structure TerrainUberHeader where
  _magic : Nat
  _width : Nat
  _height : Nat
  _dummy : Nat
deriving DecidableEq

/-- The constant `TerrainUberHeader::Magic = 0xa3d3e3c3`. -/
def TerrainUberHeader.Magic : Nat := 0xa3d3e3c3

/-- The value of `sizeof(TerrainUberHeader)`. -/
def sizeofHeader : Nat := 16

/-- The value of `sizeof(float)`. -/
def sizeofFloat : Nat := 4

/-- The four bytes of an `unsigned` in memory, least significant first (the
byte order of the machines the tool is built for). -/
def bytesOfU32 (n : Nat) : List Nat :=
  [n % 256, n / 256 % 256, n / 65536 % 256, n / 16777216 % 256]

/-- The `unsigned` stored in the first four bytes of `bs`; a missing byte counts as 0. -/
def u32OfBytes (bs : List Nat) : Nat :=
  bs.getD 0 0 + 256 * bs.getD 1 0 + 65536 * bs.getD 2 0 + 16777216 * bs.getD 3 0

/-- The 16 bytes the header occupies at the start of the mapped file. -/
def headerBytes (h : TerrainUberHeader) : List Nat :=
  bytesOfU32 h._magic ++ bytesOfU32 h._width ++ bytesOfU32 h._height ++ bytesOfU32 h._dummy

/-- The header overlaid on 16 bytes. -/
def headerOfBytes (bs : List Nat) : TerrainUberHeader :=
  { _magic := u32OfBytes bs
    _width := u32OfBytes (bs.drop 4)
    _height := u32OfBytes (bs.drop 8)
    _dummy := u32OfBytes (bs.drop 12) }

/-! ## Failures and effects -/

/-- The exceptions thrown by the functions of the file, named after their messages. -/
inductive Failure where
  /-- Thrown with "Bad or missing input terrain config file (%s)" -/
  | badInput
  /-- Thrown with "Couldn't open output file (%s)" -/
  | cannotOpenOutput
  /-- Thrown with "Couldn't open input file (%s)" -/
  | cannotOpenInput
  /-- Thrown with "User cancelled" -/
  | userCancelled
  /-- Thrown with "Error while reading from: (%s)" -/
  | readError
  /-- Thrown with "Uber surface size is not divisable by cell size (uber surface
  size:(%ix%i), cell size:(%i))" -/
  | notDivisible (width height cellSize : Nat)
deriving DecidableEq

deriving instance DecidableEq for Except

/-- The effects of `ConvertDEMData`, one constructor per statement with an effect.
Element indices are the values of the `unsigned` index expressions of the source. -/
inductive Event where
  /-- The call `progress->BeginStep(name, units, refined)` -/
  | beginStep (units : Nat) (refined : Bool)
  /-- The call `Advance()` on the current step -/
  | advance
  /-- The call `CreateDirectoryRecursive(outputDir)` -/
  | createDirectory
  /-- The construction `MemoryMappedFile outputUberFile(name, size, Write)` -/
  | createFile (size : Nat)
  /-- The four assignments of lines 141-144 -/
  | writeHeader (hdr : TerrainUberHeader)
  /-- The call `std::copy(&inputArray[first], &inputArray[last], &outputArray[dest])` -/
  | copy (first last dest : Nat)
  /-- The call `std::fill(&outputArray[first], &outputArray[last], 0.f)` -/
  | fill (first last : Nat)
  /-- The call `TIFFReadEncodedStrip(tif, strip, &outputArray[dest], -1)` -/
  | decodeStrip (strip dest : Nat)
deriving DecidableEq

/-- Whether an event stores samples into the output array. -/
def Event.isWrite : Event → Bool
  | .copy _ _ _ => true
  | .fill _ _ => true
  | .decodeStrip _ _ => true
  | _ => false

/-- What a call leaves behind: its effects in program order, and either the
exception it throws or the value it returns. -/
structure Run where
  trace : List Event
  result : Except Failure UInt2

/-! ## `ConvertDEMData` (lines 100-241) -/

/-- The `resultSize` of lines 126-129.  `finalDims[0] * finalDims[1]` is a product
of two `unsigned`; the multiplication by `sizeof(float)` and the addition of
`sizeof(TerrainUberHeader)` are done in `size_t`, which has `sizeT` values
(`2 ^ 64` or `2 ^ 32` according to the target); the sum is stored in a `uint64`. -/
def resultSize (sizeT : Nat) (fd : UInt2) : Nat :=
  ((sizeofHeader + (mulU32 fd.1 fd.2 * sizeofFloat) % sizeT) % sizeT) % 18446744073709551616

/-- The `std::copy` of lines 169-172 and 184-187 for source row `row`:
`inW` is `inCfg._dims[0]`, `outW` is `finalDims[0]`. -/
def copyRow (inW outW : Nat) (row : Nat) : Event :=
  .copy (mulU32 row inW) (addU32 (mulU32 row inW) (min inW outW)) (mulU32 row outW)

/-- The batched loop of lines 166-180, entered with `y2` and with `k` polls of the
sink behind it.  `sink k` is the answer of `copyStep->IsCancelled()` at poll
number `k`; `none` stands for `progress == nullptr`.  The result is the list of
effects together with either the exception or the value of `y2` at loop exit;
`none` when `fuel` iterations were not enough to leave the loop. -/
def batchLoop (inW outW copyRows : Nat) (sink : Option (Nat → Bool)) :
    Nat → Nat → Nat → Option (List Event × Except Failure Nat)
  | 0, _, _ => none
  | fuel + 1, k, y2 =>
    if addU32 y2 16 ≤ copyRows then
      let rows := (List.range 16).map (fun y => copyRow inW outW (addU32 y2 y))
      match sink with
      | some cancelled =>
        if cancelled k then some (rows, .error .userCancelled)
        else
          (batchLoop inW outW copyRows sink fuel (k + 1) (addU32 y2 16)).map
            (fun r => (rows ++ Event.advance :: r.1, r.2))
      | none =>
        (batchLoop inW outW copyRows sink fuel (k + 1) (addU32 y2 16)).map
          (fun r => (rows ++ r.1, r.2))
    else some ([], .ok y2)

/-- The remainder loop of lines 183-188, entered with `y2`. -/
def remainderLoop (inW outW copyRows y2 : Nat) : List Event :=
  (List.range' y2 (copyRows - y2)).map (copyRow inW outW)

/-- The strip loop of lines 209-217 over the strips still to do. -/
def stripLoop (rowsperstrip outW : Nat) (sink : Option (Nat → Bool)) :
    List Nat → List Event × Except Failure Unit
  | [] => ([], .ok ())
  | strip :: rest =>
    let ev := Event.decodeStrip strip (mulU32 (mulU32 strip rowsperstrip) outW)
    match sink with
    | some cancelled =>
      if cancelled strip then ([ev], .error .userCancelled)
      else (ev :: Event.advance :: (stripLoop rowsperstrip outW sink rest).1,
            (stripLoop rowsperstrip outW sink rest).2)
    | none => (ev :: (stripLoop rowsperstrip outW sink rest).1,
               (stripLoop rowsperstrip outW sink rest).2)

/-- The two padding loops of lines 223-238. -/
def paddingFill (dims fd : UInt2) : List Event :=
  (if fd.1 > dims.1 then
      (List.range dims.2).map
        (fun y => Event.fill (addU32 (mulU32 y fd.1) dims.1) (addU32 (mulU32 y fd.1) fd.1))
    else [])
  ++ (List.range' dims.2 (fd.2 - dims.2)).map
        (fun y => Event.fill (mulU32 y fd.1) (addU32 (mulU32 y fd.1) fd.1))

/-- The events a present progress object records, none for `progress == nullptr`. -/
def whenProgress (progress : Option (Nat → Bool)) (evs : List Event) : List Event :=
  if progress.isSome then evs else []

/-- The function `ConvertDEMData`.  `outputValid` is `outputUberFile.IsValid()`;
`progress` is `none` for a null pointer and otherwise gives the answers of
`IsCancelled()` of the copy step, by poll number.  The result is `none` when
`fuel` iterations of the batched loop were not enough. -/
def ConvertDEMData (fuel : Nat) (XlAtoI32 : List Char → Int) (sizeT : Nat)
    (input : InputFile) (outputValid : Bool)
    (destNodeDims destCellTreeDepth : Nat) (progress : Option (Nat → Bool)) : Option Run :=
  let t0 := whenProgress progress [Event.beginStep 1 false]
  let inCfg := DEMConfig XlAtoI32 input
  if mulU32 inCfg.1 inCfg.2 = 0 then some ⟨t0, .error .badInput⟩
  else
    let clamping := clampingDim destNodeDims destCellTreeDepth
    let fd := finalDims inCfg clamping
    let t1 := t0 ++ [Event.createDirectory, Event.createFile (resultSize sizeT fd)]
    if !outputValid then some ⟨t1, .error .cannotOpenOutput⟩
    else
      let t2 := t1 ++ [Event.writeHeader ⟨TerrainUberHeader.Magic, fd.1, fd.2, 0⟩]
      let ret : UInt2 := (fd.1 / clamping, fd.2 / clamping)
      if isHdrExt input.ext then
        if !input.dataValid then some ⟨t2, .error .cannotOpenInput⟩
        else
          let copyRows := min fd.2 inCfg.2
          let t3 := t2 ++ whenProgress progress [Event.advance]
                      ++ whenProgress progress [Event.beginStep (copyRows / 16) true]
          match batchLoop inCfg.1 fd.1 copyRows progress fuel 0 0 with
          | none => none
          | some (evs, .error e) => some ⟨t3 ++ evs, .error e⟩
          | some (evs, .ok y2) =>
            some ⟨t3 ++ evs ++ remainderLoop inCfg.1 fd.1 copyRows y2 ++ paddingFill inCfg fd,
                  .ok ret⟩
      else if isTifExt input.ext then
        match input.tiff with
        | none => some ⟨t2, .error .cannotOpenInput⟩
        | some tif =>
          let t3 := t2 ++ whenProgress progress [Event.beginStep tif.stripCount true]
          match stripLoop tif.rowsPerStrip fd.1 progress (List.range tif.stripCount) with
          | (evs, .error e) => some ⟨t3 ++ evs, .error e⟩
          | (evs, .ok _) => some ⟨t3 ++ evs ++ paddingFill inCfg fd, .ok ret⟩
      else some ⟨t2 ++ paddingFill inCfg fd, .ok ret⟩

/-- The events of a run of the header path that precede the row loops (the
values `t3` of `ConvertDEMData`), for the padded extent `fd` and `copyRows`. -/
def hdrPrologue (progress : Option (Nat → Bool)) (sizeT : Nat) (fd : UInt2) (copyRows : Nat) :
    List Event :=
  whenProgress progress [Event.beginStep 1 false]
    ++ [Event.createDirectory, Event.createFile (resultSize sizeT fd)]
    ++ [Event.writeHeader ⟨TerrainUberHeader.Magic, fd.1, fd.2, 0⟩]
    ++ whenProgress progress [Event.advance]
    ++ whenProgress progress [Event.beginStep (copyRows / 16) true]

/-! ## The contents of the output array -/

/-- The effect of one event on the output array `out`.  `inp` is the input
sample array (`inputArray`), `strips s` the samples strip `s` decodes to, `zero`
the value `0.f`.  A `std::copy` or `std::fill` whose end lies before its start
has no defined effect: `none`. -/
def applyEvent {α : Type} (zero : α) (inp : Nat → α) (strips : Nat → List α) :
    Event → (Nat → α) → Option (Nat → α)
  | .copy first last dest, out =>
    if first ≤ last then
      some (fun i => if dest ≤ i ∧ i < dest + (last - first) then inp (first + (i - dest)) else out i)
    else none
  | .fill first last, out =>
    if first ≤ last then some (fun i => if first ≤ i ∧ i < last then zero else out i)
    else none
  | .decodeStrip strip dest, out =>
    some (fun i =>
      if dest ≤ i ∧ i < dest + (strips strip).length then (strips strip).getD (i - dest) zero
      else out i)
  | _, out => some out

/-- The output array after the events of a trace, starting from `out`. -/
def applyTrace {α : Type} (zero : α) (inp : Nat → α) (strips : Nat → List α) :
    List Event → (Nat → α) → Option (Nat → α)
  | [], out => some out
  | e :: es, out => (applyEvent zero inp strips e out).bind (applyTrace zero inp strips es)

/-- The header the trace wrote, if any. -/
def writtenHeader : List Event → Option TerrainUberHeader
  | [] => none
  | .writeHeader h :: _ => some h
  | _ :: es => writtenHeader es

/-! ## Ranges of the accesses -/

/-- The number of samples that fit behind the header in a file created with
`resultSize` bytes: the length of the array `outputArray` points to. -/
def payloadLength (sizeT : Nat) (fd : UInt2) : Nat :=
  (resultSize sizeT fd - sizeofHeader) / sizeofFloat

/-- Whether the iterator range of a `std::copy` or `std::fill` is a range at all
(its end not before its start). -/
def Event.validRange : Event → Bool
  | .copy first last _ => decide (first ≤ last)
  | .fill first last => decide (first ≤ last)
  | _ => true

/-- Whether every element an event reads from the input array has an index below
`inLen` (for a copy, the elements `first .. last-1`). -/
def Event.readsWithin (inLen : Nat) : Event → Bool
  | .copy _ last _ => decide (last ≤ inLen)
  | _ => true

/-- Whether every element an event writes in the output array has an index below
`outLen`: a copy writes `last - first` elements from `dest` on, a fill the
elements `first .. last-1`, the decoding of a strip of `stripLen strip` samples
that many elements from `dest` on. -/
def Event.writesWithin (stripLen : Nat → Nat) (outLen : Nat) : Event → Bool
  | .copy first last dest => decide (dest + (last - first) ≤ outLen)
  | .fill _ last => decide (last ≤ outLen)
  | .decodeStrip strip dest => decide (dest + stripLen strip ≤ outLen)
  | _ => true

/-- Whether an event writes the element of index `i` of the output array. -/
def Event.covers (stripLen : Nat → Nat) (i : Nat) : Event → Bool
  | .copy first last dest => decide (dest ≤ i ∧ i < dest + (last - first))
  | .fill first last => decide (first ≤ i ∧ i < last)
  | .decodeStrip strip dest => decide (dest ≤ i ∧ i < dest + stripLen strip)
  | _ => false

/-- The fill of the padding columns of row `y` (first loop of lines 224-231):
`inW` is `inCfg._dims[0]`, `outW` is `finalDims[0]`. -/
def fillRowTail (inW outW : Nat) (y : Nat) : Event :=
  .fill (addU32 (mulU32 y outW) inW) (addU32 (mulU32 y outW) outW)

/-- The fill of the whole row `y` (second loop of lines 233-238). -/
def fillRow (outW : Nat) (y : Nat) : Event :=
  .fill (mulU32 y outW) (addU32 (mulU32 y outW) outW)

/-- The plain loop the batched copy is compared with: one copy per source row
`y` in `[0, copyRows)`, in increasing order. -/
def plainRowLoop (inW outW copyRows : Nat) : List Event :=
  (List.range copyRows).map (copyRow inW outW)

/-! ## `GetUberSurfaceDimensions` (lines 243-250) and `GenerateStarterCells` (lines 254-298) -/

/-- The call `file.Read(&hdr, sizeof(hdr), 1)`: the header, when the file holds
one whole element of 16 bytes. -/
def readHeader (file : List Nat) : Option TerrainUberHeader :=
  if sizeofHeader ≤ file.length then some (headerOfBytes (file.take sizeofHeader)) else none

/-- The function `GetUberSurfaceDimensions` on a file given by its bytes. -/
def GetUberSurfaceDimensions (file : List Nat) : Except Failure UInt2 :=
  match readHeader file with
  | none => .error .readError
  | some hdr =>
    if hdr._magic ≠ TerrainUberHeader.Magic then .error .readError
    else .ok (hdr._width, hdr._height)

/-- Modelled from the spec: the aggregate `TerrainConfig::CoverageLayer` built at
lines 286-290 (its declaration, in SceneEngine/TerrainConfig.h, is not among the
sources): source uber-surface path, channel id, per-cell sample resolution,
element stride and layer-specific parameter, in the order of the initialiser. -/
structure CoverageLayer where
  name : List Char
  id : Nat
  dimensions : UInt2
  stride : Nat
  layerParam : Nat
deriving DecidableEq

/-- Modelled from the spec: the object `cfg` of `GenerateStarterCells` (class
`TerrainConfig`, declared in SceneEngine/TerrainConfig.h, not among the sources):
the cell grid extent and tiling parameters passed to the constructor at lines
275-277 and the layers added afterwards.  `F` is the type of `spacing`. -/
structure TerrainConfig (F : Type) where
  cellCount : UInt2
  nodeDims : Nat
  cellTreeDepth : Nat
  overlap : Nat
  spacing : F
  layers : List CoverageLayer
deriving DecidableEq

/-- The `cellDimsInEles = (1 << (destCellTreeDepth - 1)) * destNodeDims` of line 268. -/
def cellDimsInEles (destNodeDims destCellTreeDepth : Nat) : Nat :=
  mulU32 (shlU32 1 (subU32 destCellTreeDepth 1)) destNodeDims

/-- The layer appended by one turn of the loop of lines 279-291. -/
def starterLayer (uberSurfaceFN : Nat → List Char) (destNodeDims : Nat) (l : Nat × Nat) :
    CoverageLayer :=
  { name := uberSurfaceFN l.1
    id := l.1
    dimensions := (mulU32 4 destNodeDims, mulU32 4 destNodeDims)
    stride := 1
    layerParam := l.2 }

/-- The function `GenerateStarterCells` up to `cfg.Save()`: the exception thrown,
or the configuration handed on.  `heightsFile` is the contents of the heights
uber-surface file, `uberSurfaceFN id` the file name `GetUberSurfaceFilename`
yields for a coverage id. -/
def GenerateStarterCells {F : Type} (heightsFile : List Nat) (uberSurfaceFN : Nat → List Char)
    (destNodeDims destCellTreeDepth overlap : Nat) (spacing : F)
    (layers : List (Nat × Nat)) : Except Failure (TerrainConfig F) :=
  match GetUberSurfaceDimensions heightsFile with
  | .error e => .error e
  | .ok eleCount =>
    let cell := cellDimsInEles destNodeDims destCellTreeDepth
    if eleCount.1 % cell ≠ 0 ∨ eleCount.2 % cell ≠ 0 then
      .error (.notDivisible eleCount.1 eleCount.2 cell)
    else
      .ok { cellCount := (eleCount.1 / cell, eleCount.2 / cell)
            nodeDims := destNodeDims
            cellTreeDepth := destCellTreeDepth
            overlap := overlap
            spacing := spacing
            layers := layers.map (starterLayer uberSurfaceFN destNodeDims) }

/-! ## Arithmetic lemmas -/

theorem subU32_one {d : Nat} (h1 : 1 ≤ d) (h2 : d < 4294967296) : subU32 d 1 = d - 1 := by
  unfold subU32
  omega

theorem depth_le_of_fits {n d : Nat} (hn : 0 < n) (h : n * 2 ^ (d - 1) < 4294967296) :
    d - 1 < 32 := by
  by_contra hge
  have h32 : (2 : Nat) ^ 32 ≤ 2 ^ (d - 1) := Nat.pow_le_pow_right (by decide) (by omega)
  have hle : 2 ^ (d - 1) ≤ n * 2 ^ (d - 1) := Nat.le_mul_of_pos_left _ hn
  have : (2 : Nat) ^ 32 = 4294967296 := by norm_num
  omega

theorem cellWidthInNodes_eq {n d : Nat} (hn : 0 < n) (hd : 1 ≤ d)
    (h : n * 2 ^ (d - 1) < 4294967296) : cellWidthInNodes d = 2 ^ (d - 1) := by
  have hlt : d - 1 < 32 := depth_le_of_fits hn h
  have hle : 2 ^ (d - 1) ≤ n * 2 ^ (d - 1) := Nat.le_mul_of_pos_left _ hn
  unfold cellWidthInNodes
  rw [subU32_one hd (by omega)]
  unfold shlU32
  rw [if_pos hlt, Nat.one_mul]
  exact Nat.mod_eq_of_lt (by omega)

theorem clampingDim_eq {n d : Nat} (hn : 0 < n) (hd : 1 ≤ d)
    (h : n * 2 ^ (d - 1) < 4294967296) : clampingDim n d = n * 2 ^ (d - 1) := by
  unfold clampingDim mulU32
  rw [cellWidthInNodes_eq hn hd h]
  exact Nat.mod_eq_of_lt h

theorem cellDimsInEles_eq_clampingDim (n d : Nat) : cellDimsInEles n d = clampingDim n d := by
  unfold cellDimsInEles clampingDim cellWidthInNodes mulU32
  rw [Nat.mul_comm]

theorem padDim_of_dvd {d c : Nat} (h : d % c = 0) : padDim d c = d := by
  unfold padDim
  simp [h]

/-- When some multiple of `c` between `d` and `2 ^ 32` exists, `padDim d c` is the
least multiple of `c` that is at least `d`. -/
theorem padDim_spec {d c : Nat} (hc : 0 < c) (hfit : ∃ k, d ≤ k * c ∧ k * c < 4294967296) :
    d ≤ padDim d c ∧ padDim d c % c = 0 ∧ padDim d c - d < c ∧ padDim d c < 4294967296 := by
  obtain ⟨k, hk1, hk2⟩ := hfit
  by_cases hm : d % c = 0
  · rw [padDim_of_dvd hm]
    refine ⟨le_refl _, hm, by omega, by omega⟩
  · have hr : d % c < c := Nat.mod_lt _ hc
    have hdm : c * (d / c) + d % c = d := Nat.div_add_mod d c
    have hne : d ≠ k * c := by
      intro he
      apply hm
      rw [he]
      exact Nat.mul_mod_left k c
    have hq : d / c < k := Nat.div_lt_of_lt_mul (by rw [Nat.mul_comm]; omega)
    have hmul : c * (d / c + 1) ≤ c * k := Nat.mul_le_mul_left c hq
    have hexp : c * (d / c + 1) = c * (d / c) + c := by ring
    have hkc : c * k = k * c := Nat.mul_comm c k
    have hkpos : 0 < k := Nat.lt_of_le_of_lt (Nat.zero_le _) hq
    have hck : c ≤ k * c := Nat.le_mul_of_pos_left c hkpos
    have hval : padDim d c = c * (d / c) + c := by
      unfold padDim
      rw [if_pos hm]
      unfold addU32 subU32
      omega
    have hmod : (c * (d / c) + c) % c = 0 := by simp
    rw [hval]
    refine ⟨by omega, hmod, by omega, by omega⟩

/-- A positive value below a multiple of `c` that fits in 32 bits forces `c` itself
to fit in 32 bits. -/
theorem clamping_fits {d c : Nat} (hd : 0 < d) (hfit : ∃ k, d ≤ k * c ∧ k * c < 4294967296) :
    c < 4294967296 := by
  obtain ⟨k, hk1, hk2⟩ := hfit
  have hkpos : 0 < k := by
    rcases Nat.eq_zero_or_pos k with h0 | h0
    · subst h0; simp at hk1; omega
    · exact h0
  have := Nat.le_mul_of_pos_left c hkpos
  omega

/-! ## C1: the padded dimensions -/

/-- C1, as the claim states it, fails: with nodeDim 7, depth 1 and a source of
width 4294967295 and height 1, the 32-bit addition of line 121 wraps and the
padded width is 3, which is smaller than the source width and is not a multiple
of the clamping dimension 7. -/
theorem finalDims_wraps_counterexample :
    0 < 7 ∧ 1 ≤ 1 ∧ 0 < 4294967295 ∧ 0 < 1 ∧ clampingDim 7 1 = 7 * 2 ^ (1 - 1) ∧
    (finalDims (4294967295, 1) (clampingDim 7 1)).1 = 3 ∧
    ¬ (4294967295 ≤ (finalDims (4294967295, 1) (clampingDim 7 1)).1) ∧
    ¬ ((finalDims (4294967295, 1) (clampingDim 7 1)).1 % (7 * 2 ^ (1 - 1)) = 0) := by
  decide

/-- C1 (amended): for nodeDim `N > 0`, depth `D ≥ 1` and a source extent
`(W, H)` with `W, H > 0`, provided a multiple of `c = N * 2 ^ (D - 1)` lies
between `W` and `2 ^ 32` and one between `H` and `2 ^ 32` (so that the 32-bit
arithmetic does not wrap), the clamping dimension computed is `c` and the padded
dimensions `(W', H')` satisfy `W' ≥ W`, `H' ≥ H`, `W' mod c = 0`, `H' mod c = 0`,
`W' - W < c`, `H' - H < c`, with `W' = W` when `W` is a multiple of `c`. -/
theorem finalDims_padding (N D W H : Nat) (hN : 0 < N) (hD : 1 ≤ D) (hW : 0 < W) (_hH : 0 < H)
    (hWfit : ∃ k, W ≤ k * (N * 2 ^ (D - 1)) ∧ k * (N * 2 ^ (D - 1)) < 4294967296)
    (hHfit : ∃ k, H ≤ k * (N * 2 ^ (D - 1)) ∧ k * (N * 2 ^ (D - 1)) < 4294967296) :
    clampingDim N D = N * 2 ^ (D - 1) ∧
    W ≤ (finalDims (W, H) (clampingDim N D)).1 ∧
    H ≤ (finalDims (W, H) (clampingDim N D)).2 ∧
    (finalDims (W, H) (clampingDim N D)).1 % (N * 2 ^ (D - 1)) = 0 ∧
    (finalDims (W, H) (clampingDim N D)).2 % (N * 2 ^ (D - 1)) = 0 ∧
    (finalDims (W, H) (clampingDim N D)).1 - W < N * 2 ^ (D - 1) ∧
    (finalDims (W, H) (clampingDim N D)).2 - H < N * 2 ^ (D - 1) ∧
    (W % (N * 2 ^ (D - 1)) = 0 → (finalDims (W, H) (clampingDim N D)).1 = W) := by
  have hcpos : 0 < N * 2 ^ (D - 1) := Nat.mul_pos hN (Nat.pow_pos (by decide))
  have hc : N * 2 ^ (D - 1) < 4294967296 := clamping_fits hW hWfit
  rw [clampingDim_eq hN hD hc]
  obtain ⟨w1, w2, w3, -⟩ := padDim_spec hcpos hWfit
  obtain ⟨h1, h2, h3, -⟩ := padDim_spec hcpos hHfit
  exact ⟨rfl, w1, h1, w2, h2, w3, h3, fun hm => padDim_of_dvd hm⟩

/-- The amended C1 at nodeDim 32, depth 1 and a 100 x 100 source. -/
theorem finalDims_padding_witness :
    (finalDims (100, 100) (clampingDim 32 1)).1 % (32 * 2 ^ (1 - 1)) = 0 ∧
    (finalDims (100, 100) (clampingDim 32 1)).1 - 100 < 32 * 2 ^ (1 - 1) :=
  have h := finalDims_padding 32 1 100 100 (by decide) (by decide) (by decide) (by decide)
    ⟨4, by decide, by decide⟩ ⟨4, by decide, by decide⟩
  ⟨h.2.2.2.1, h.2.2.2.2.2.1⟩

/-! ## Lemmas on traces and on the row loops -/

theorem applyTrace_append {α : Type} (zero : α) (inp : Nat → α) (strips : Nat → List α)
    (a b : List Event) (out : Nat → α) :
    applyTrace zero inp strips (a ++ b) out
      = (applyTrace zero inp strips a out).bind (applyTrace zero inp strips b) := by
  induction a generalizing out with
  | nil => simp [applyTrace]
  | cons e es ih =>
    simp only [List.cons_append, applyTrace]
    cases applyEvent zero inp strips e out with
    | none => simp
    | some o => simpa using ih o

theorem applyEvent_of_not_write {α : Type} (zero : α) (inp : Nat → α) (strips : Nat → List α)
    (e : Event) (h : e.isWrite = false) (out : Nat → α) :
    applyEvent zero inp strips e out = some out := by
  cases e <;> simp_all [Event.isWrite, applyEvent]

theorem applyTrace_filter {α : Type} (zero : α) (inp : Nat → α) (strips : Nat → List α)
    (tr : List Event) (out : Nat → α) :
    applyTrace zero inp strips tr out
      = applyTrace zero inp strips (tr.filter Event.isWrite) out := by
  induction tr generalizing out with
  | nil => rfl
  | cons e es ih =>
    by_cases hw : e.isWrite = true
    · rw [List.filter_cons_of_pos hw]
      simp only [applyTrace]
      cases applyEvent zero inp strips e out with
      | none => rfl
      | some o => simpa using ih o
    · have hw2 : e.isWrite = false := by simpa using hw
      rw [List.filter_cons_of_neg hw]
      simp only [applyTrace]
      rw [applyEvent_of_not_write zero inp strips e hw2]
      simpa using ih out

theorem copyRow_isWrite (inW outW row : Nat) : (copyRow inW outW row).isWrite = true := rfl

theorem filter_isWrite_map_copyRow (inW outW : Nat) (rows : List Nat) :
    (rows.map (copyRow inW outW)).filter Event.isWrite = rows.map (copyRow inW outW) := by
  apply List.filter_eq_self.mpr
  intro e he
  obtain ⟨r, -, rfl⟩ := List.mem_map.mp he
  rfl

/-- The sixteen copies of one batch, when the row counter does not wrap. -/
theorem batch_rows_eq (inW outW y2 : Nat) (h : y2 + 16 ≤ 4294967296) :
    (List.range 16).map (fun y => copyRow inW outW (addU32 y2 y))
      = (List.range' y2 16).map (copyRow inW outW) := by
  rw [List.range_eq_range', List.range'_eq_map_range, List.range'_eq_map_range (s := y2)]
  simp only [List.map_map]
  apply List.map_congr_left
  intro y hy
  have hy16 : y < 16 := List.mem_range.mp hy
  have : addU32 y2 y = y2 + y := by
    unfold addU32
    exact Nat.mod_eq_of_lt (by omega)
  simp [this]

/-- With at least `2 ^ 32 - 16` rows to copy the condition of the batched loop
holds at every multiple of 16, so the loop is never left through its condition. -/
theorem batchLoop_never_exits (inW outW copyRows : Nat) (sink : Option (Nat → Bool))
    (hbig : 4294967280 ≤ copyRows) :
    ∀ (fuel k y2 : Nat), y2 % 16 = 0 → y2 < 4294967296 →
      ∀ evs y, batchLoop inW outW copyRows sink fuel k y2 ≠ some (evs, .ok y) := by
  intro fuel
  induction fuel with
  | zero => intro k y2 _ _ evs y; simp [batchLoop]
  | succ fuel ih =>
    intro k y2 hmod hlt evs y
    have hcond : addU32 y2 16 ≤ copyRows := by
      unfold addU32
      omega
    have hmod2 : addU32 y2 16 % 16 = 0 := by unfold addU32; omega
    have hlt2 : addU32 y2 16 < 4294967296 := by unfold addU32; omega
    unfold batchLoop
    rw [if_pos hcond]
    cases sink with
    | none =>
      simp only
      intro h
      cases hrec : batchLoop inW outW copyRows none fuel (k + 1) (addU32 y2 16) with
      | none => rw [hrec] at h; simp at h
      | some r =>
        rw [hrec] at h
        simp only [Option.map_some', Option.some.injEq, Prod.mk.injEq] at h
        obtain ⟨r1, r2⟩ := r
        exact ih (k + 1) (addU32 y2 16) hmod2 hlt2 r1 y (by rw [hrec]; simp [← h.2])
    | some cancelled =>
      simp only
      by_cases hc : cancelled k = true
      · rw [if_pos hc]; simp
      · rw [if_neg hc]
        intro h
        cases hrec : batchLoop inW outW copyRows (some cancelled) fuel (k + 1) (addU32 y2 16) with
        | none => rw [hrec] at h; simp at h
        | some r =>
          rw [hrec] at h
          simp only [Option.map_some', Option.some.injEq, Prod.mk.injEq] at h
          obtain ⟨r1, r2⟩ := r
          exact ih (k + 1) (addU32 y2 16) hmod2 hlt2 r1 y (by rw [hrec]; simp [← h.2])

/-- When the batched loop is left through its condition, it has copied the rows
from its entry value of `y2` up to its exit value, each once and in order, and
fewer than 16 rows remain. -/
theorem batchLoop_ok (inW outW copyRows : Nat) (sink : Option (Nat → Bool))
    (hrows : copyRows < 4294967296) :
    ∀ (fuel k y2 : Nat) (evs : List Event) (y : Nat), y2 % 16 = 0 → y2 ≤ copyRows →
      batchLoop inW outW copyRows sink fuel k y2 = some (evs, .ok y) →
      y2 ≤ y ∧ y ≤ copyRows ∧ copyRows < y + 16 ∧ y % 16 = 0 ∧
      evs.filter Event.isWrite = (List.range' y2 (y - y2)).map (copyRow inW outW) := by
  intro fuel
  induction fuel with
  | zero => intro k y2 evs y _ _ h; simp [batchLoop] at h
  | succ fuel ih =>
    intro k y2 evs y hmod hle h
    by_cases hbig : 4294967280 ≤ copyRows
    · exact absurd h (batchLoop_never_exits inW outW copyRows sink hbig (fuel + 1) k y2 hmod
        (by omega) evs y)
    · have hadd : addU32 y2 16 = y2 + 16 := by
        unfold addU32
        exact Nat.mod_eq_of_lt (by omega)
      unfold batchLoop at h
      rw [hadd] at h
      by_cases hcond : y2 + 16 ≤ copyRows
      · rw [if_pos hcond, batch_rows_eq inW outW y2 (by omega)] at h
        have key : ∀ (r : List Event × Except Failure Nat) (pre : List Event),
            batchLoop inW outW copyRows sink fuel (k + 1) (y2 + 16) = some r →
            pre.filter Event.isWrite = [] →
            evs = (List.range' y2 16).map (copyRow inW outW) ++ (pre ++ r.1) → r.2 = .ok y →
            y2 ≤ y ∧ y ≤ copyRows ∧ copyRows < y + 16 ∧ y % 16 = 0 ∧
            evs.filter Event.isWrite = (List.range' y2 (y - y2)).map (copyRow inW outW) := by
          intro r pre hrec hpre hevs hres
          obtain ⟨r1, r2⟩ := r
          simp only at hres hevs
          subst hres
          obtain ⟨a1, a2, a3, a4, a5⟩ := ih (k + 1) (y2 + 16) r1 y (by omega) hcond hrec
          refine ⟨by omega, a2, a3, a4, ?_⟩
          rw [hevs, List.filter_append, List.filter_append, filter_isWrite_map_copyRow, hpre, a5,
            List.nil_append, ← List.map_append]
          congr 1
          have hlen : y - y2 = (y - (y2 + 16)) + 16 := by omega
          rw [hlen, List.range'_append_1]
        cases sink with
        | none =>
          simp only at h
          cases hrec : batchLoop inW outW copyRows none fuel (k + 1) (y2 + 16) with
          | none => rw [hrec] at h; simp at h
          | some r =>
            rw [hrec] at h
            simp only [Option.map_some', Option.some.injEq, Prod.mk.injEq] at h
            exact key r [] hrec rfl (by simp [← h.1]) h.2
        | some cancelled =>
          simp only at h
          by_cases hc : cancelled k = true
          · rw [if_pos hc] at h; simp at h
          · rw [if_neg hc] at h
            cases hrec : batchLoop inW outW copyRows (some cancelled) fuel (k + 1) (y2 + 16) with
            | none => rw [hrec] at h; simp at h
            | some r =>
              rw [hrec] at h
              simp only [Option.map_some', Option.some.injEq, Prod.mk.injEq] at h
              exact key r [Event.advance] hrec rfl (by simp [← h.1]) h.2
      · rw [if_neg hcond] at h
        simp only [Option.some.injEq, Prod.mk.injEq, Except.ok.injEq] at h
        obtain ⟨h1, h2⟩ := h
        subst h1 h2
        refine ⟨le_refl _, hle, by omega, hmod, ?_⟩
        simp

/-! ## Lemmas on the contents of the output array -/

/-- An index `y * V + x` with `x < V` lies in the segment `[lo, hi)` of row `a`
exactly when `y = a` and `lo ≤ x < hi`. -/
theorem row_index_iff {V a y x lo hi : Nat} (hx : x < V) (hhi : hi ≤ V) :
    (a * V + lo ≤ y * V + x ∧ y * V + x < a * V + hi) ↔ (y = a ∧ lo ≤ x ∧ x < hi) := by
  constructor
  · rintro ⟨h1, h2⟩
    rcases Nat.lt_trichotomy y a with hlt | heq | hgt
    · have : (y + 1) * V ≤ a * V := Nat.mul_le_mul_right V hlt
      have hexp : (y + 1) * V = y * V + V := by ring
      omega
    · subst heq
      omega
    · have : (a + 1) * V ≤ y * V := Nat.mul_le_mul_right V hgt
      have hexp : (a + 1) * V = a * V + V := by ring
      omega
  · rintro ⟨rfl, h1, h2⟩
    omega

theorem row_end_le {y H V : Nat} (h : y < H) : y * V + V ≤ H * V := by
  have : (y + 1) * V ≤ H * V := Nat.mul_le_mul_right V h
  have hexp : (y + 1) * V = y * V + V := by ring
  omega

/-- The output array after a list of events, one per row of `rows`, each of which
overwrites the segment `[lo, hi)` of its row `y` with the values `G y`. -/
theorem applyTrace_rows {α : Type} (zero : α) (inp : Nat → α) (strips : Nat → List α)
    (V lo hi : Nat) (hhi : hi ≤ V) (G : Nat → Nat → α) (ev : Nat → Event) (rows : List Nat)
    (hev : ∀ y ∈ rows, ∀ out : Nat → α, applyEvent zero inp strips (ev y) out
      = some (fun i => if y * V + lo ≤ i ∧ i < y * V + hi then G y i else out i))
    (out : Nat → α) :
    ∃ res, applyTrace zero inp strips (rows.map ev) out = some res ∧
      ∀ x y, x < V → res (y * V + x)
        = if y ∈ rows ∧ lo ≤ x ∧ x < hi then G y (y * V + x) else out (y * V + x) := by
  induction rows generalizing out with
  | nil => exact ⟨out, rfl, by simp⟩
  | cons r rs ih =>
    have hr := hev r (List.mem_cons_self r rs) out
    obtain ⟨res, hres, hval⟩ := ih (fun y hy => hev y (List.mem_cons_of_mem r hy))
      (fun i => if r * V + lo ≤ i ∧ i < r * V + hi then G r i else out i)
    refine ⟨res, ?_, ?_⟩
    · simp only [List.map_cons, applyTrace, hr, Option.some_bind]
      exact hres
    · intro x y hx
      rw [hval x y hx]
      have hiff := @row_index_iff V r y x lo hi hx hhi
      by_cases hmem : y ∈ rs ∧ lo ≤ x ∧ x < hi
      · have hmem2 : y ∈ r :: rs ∧ lo ≤ x ∧ x < hi := ⟨List.mem_cons_of_mem r hmem.1, hmem.2⟩
        rw [if_pos hmem, if_pos hmem2]
      · rw [if_neg hmem]
        by_cases hrow : y = r ∧ lo ≤ x ∧ x < hi
        · have hmem2 : y ∈ r :: rs ∧ lo ≤ x ∧ x < hi := by
            refine ⟨?_, hrow.2⟩
            rw [hrow.1]
            exact List.mem_cons_self r rs
          rw [if_pos (hiff.mpr hrow), if_pos hmem2, hrow.1]
        · have hmem2 : ¬ (y ∈ r :: rs ∧ lo ≤ x ∧ x < hi) := by
            rintro ⟨h1, h2⟩
            rcases List.mem_cons.mp h1 with h3 | h3
            · exact hrow ⟨h3, h2⟩
            · exact hmem ⟨h3, h2⟩
          rw [if_neg (fun hc => hrow (hiff.mp hc)), if_neg hmem2]

/-- The copy of row `y` when none of its index expressions wraps. -/
theorem copyRow_eq {W V H1 y : Nat} (hWV : W ≤ V) (hfit : H1 * V < 4294967296) (hy : y < H1) :
    copyRow W V y = Event.copy (y * W) (y * W + W) (y * V) := by
  have h1 := row_end_le (V := V) hy
  have h2 : y * W ≤ y * V := Nat.mul_le_mul_left y hWV
  unfold copyRow mulU32 addU32
  rw [Nat.min_eq_left hWV, Nat.mod_eq_of_lt (by omega : y * W < 4294967296),
    Nat.mod_eq_of_lt (by omega : y * W + W < 4294967296),
    Nat.mod_eq_of_lt (by omega : y * V < 4294967296)]

theorem applyEvent_copyRow {α : Type} (zero : α) (inp : Nat → α) (strips : Nat → List α)
    {W V H1 y : Nat} (hWV : W ≤ V) (hfit : H1 * V < 4294967296) (hy : y < H1) (out : Nat → α) :
    applyEvent zero inp strips (copyRow W V y) out
      = some (fun i => if y * V + 0 ≤ i ∧ i < y * V + W then inp (y * W + (i - y * V))
          else out i) := by
  rw [copyRow_eq hWV hfit hy]
  simp [applyEvent]

theorem applyEvent_fill {α : Type} (zero : α) (inp : Nat → α) (strips : Nat → List α)
    {V H1 y lo : Nat} (hlo : lo ≤ V) (hfit : H1 * V < 4294967296) (hy : y < H1)
    (out : Nat → α) :
    applyEvent zero inp strips
        (Event.fill (addU32 (mulU32 y V) lo) (addU32 (mulU32 y V) V)) out
      = some (fun i => if y * V + lo ≤ i ∧ i < y * V + V then zero else out i) := by
  have h1 := row_end_le (V := V) hy
  unfold mulU32 addU32
  rw [Nat.mod_eq_of_lt (by omega : y * V < 4294967296),
    Nat.mod_eq_of_lt (by omega : y * V + lo < 4294967296),
    Nat.mod_eq_of_lt (by omega : y * V + V < 4294967296)]
  simp [applyEvent, hlo]

theorem applyEvent_fill_row {α : Type} (zero : α) (inp : Nat → α) (strips : Nat → List α)
    {V H1 y : Nat} (hfit : H1 * V < 4294967296) (hy : y < H1) (out : Nat → α) :
    applyEvent zero inp strips (Event.fill (mulU32 y V) (addU32 (mulU32 y V) V)) out
      = some (fun i => if y * V + 0 ≤ i ∧ i < y * V + V then zero else out i) := by
  have h := @applyEvent_fill α zero inp strips V H1 y 0 (Nat.zero_le V) hfit hy out
  have h0 : addU32 (mulU32 y V) 0 = mulU32 y V := by
    unfold addU32 mulU32
    simp
  rw [h0] at h
  exact h

/-- The output array after all the writes of a completed run of the header path:
the copies of the rows `0 .. H-1` followed by the padding fill, when the padded
extent `(V, H1)` contains the source extent and `H1 * V` is below `2 ^ 32`. -/
theorem applyTrace_copy_pad {α : Type} (zero : α) (inp : Nat → α) (strips : Nat → List α)
    {W H V H1 : Nat} (hWV : W ≤ V) (hHH : H ≤ H1) (hfit : H1 * V < 4294967296)
    (out0 : Nat → α) :
    ∃ out, applyTrace zero inp strips
        ((List.range' 0 H).map (copyRow W V) ++ paddingFill (W, H) (V, H1)) out0 = some out ∧
      ∀ x y, x < V → y < H1 →
        out (y * V + x) = if x < W ∧ y < H then inp (y * W + x) else zero := by
  obtain ⟨o1, ho1, hv1⟩ := applyTrace_rows zero inp strips V 0 W hWV
    (fun y i => inp (y * W + (i - y * V))) (copyRow W V) (List.range' 0 H)
    (fun y hy out => applyEvent_copyRow zero inp strips hWV hfit
      (by have := (List.mem_range'_1.mp hy).2; omega) out) out0
  obtain ⟨o2, ho2, hv2⟩ := applyTrace_rows zero inp strips V W V (le_refl V)
    (fun _ _ => zero)
    (fun y => Event.fill (addU32 (mulU32 y V) W) (addU32 (mulU32 y V) V))
    (if V > W then List.range H else [])
    (fun y hy out => by
      by_cases hgt : V > W
      · rw [if_pos hgt] at hy
        exact applyEvent_fill zero inp strips hWV hfit
          (by have := List.mem_range.mp hy; omega) out
      · rw [if_neg hgt] at hy
        exact absurd hy (List.not_mem_nil y)) o1
  obtain ⟨o3, ho3, hv3⟩ := applyTrace_rows zero inp strips V 0 V (le_refl V)
    (fun _ _ => zero)
    (fun y => Event.fill (mulU32 y V) (addU32 (mulU32 y V) V))
    (List.range' H (H1 - H))
    (fun y hy out => applyEvent_fill_row zero inp strips hfit
      (by have := (List.mem_range'_1.mp hy).2; omega) out) o2
  have hpad : paddingFill (W, H) (V, H1)
      = (if V > W then List.range H else []).map
          (fun y => Event.fill (addU32 (mulU32 y V) W) (addU32 (mulU32 y V) V))
        ++ (List.range' H (H1 - H)).map
          (fun y => Event.fill (mulU32 y V) (addU32 (mulU32 y V) V)) := by
    unfold paddingFill
    by_cases hgt : V > W <;> simp [hgt]
  refine ⟨o3, ?_, ?_⟩
  · rw [hpad, applyTrace_append, ho1, Option.some_bind, applyTrace_append, ho2,
      Option.some_bind, ho3]
  · intro x y hx hy
    rw [hv3 x y hx, hv2 x y hx, hv1 x y hx]
    by_cases hyH : y < H
    · have hn3 : ¬ (y ∈ List.range' H (H1 - H) ∧ 0 ≤ x ∧ x < V) := by
        rintro ⟨hm, -⟩
        have := (List.mem_range'_1.mp hm).1
        omega
      rw [if_neg hn3]
      by_cases hxW : x < W
      · have hn2 : ¬ (y ∈ (if V > W then List.range H else []) ∧ W ≤ x ∧ x < V) := by
          rintro ⟨-, h2, -⟩
          omega
        have hp1 : y ∈ List.range' 0 H ∧ 0 ≤ x ∧ x < W :=
          ⟨List.mem_range'_1.mpr ⟨Nat.zero_le y, by omega⟩, Nat.zero_le x, hxW⟩
        rw [if_neg hn2, if_pos hp1, if_pos ⟨hxW, hyH⟩]
        congr 1
        omega
      · have hgt : V > W := by omega
        have hp2 : y ∈ (if V > W then List.range H else []) ∧ W ≤ x ∧ x < V := by
          rw [if_pos hgt]
          exact ⟨List.mem_range.mpr hyH, by omega, hx⟩
        rw [if_pos hp2, if_neg (fun hc => hxW hc.1)]
    · have hp3 : y ∈ List.range' H (H1 - H) ∧ 0 ≤ x ∧ x < V :=
        ⟨List.mem_range'_1.mpr ⟨by omega, by omega⟩, Nat.zero_le x, hx⟩
      rw [if_pos hp3, if_neg (fun hc => hyH hc.2)]

/-! ## Shape of a completed run of the header path -/

theorem hdrPrologue_filter (progress : Option (Nat → Bool)) (sizeT : Nat) (fd : UInt2)
    (copyRows : Nat) : (hdrPrologue progress sizeT fd copyRows).filter Event.isWrite = [] := by
  cases progress <;> simp [hdrPrologue, whenProgress, Event.isWrite]

/-- A run of the header path that returns normally has passed the zero-area
check, has left the batched loop through its condition, and its trace is the
prologue, the batched copies, the remainder copies and the padding fill. -/
theorem convert_hdr_ok_shape (fuel : Nat) (XlAtoI32 : List Char → Int) (sizeT : Nat)
    (input : InputFile) (outputValid : Bool) (N D : Nat) (progress : Option (Nat → Bool))
    (W H : Nat) (run : Run) (ret : UInt2)
    (hext : isHdrExt input.ext = true) (hdims : DEMConfig XlAtoI32 input = (W, H))
    (hrun : ConvertDEMData fuel XlAtoI32 sizeT input outputValid N D progress = some run)
    (hok : run.result = .ok ret) :
    mulU32 W H ≠ 0 ∧
    ∃ evs y2,
      batchLoop W (finalDims (W, H) (clampingDim N D)).1
        (min (finalDims (W, H) (clampingDim N D)).2 H) progress fuel 0 0 = some (evs, .ok y2) ∧
      run.trace = hdrPrologue progress sizeT (finalDims (W, H) (clampingDim N D))
            (min (finalDims (W, H) (clampingDim N D)).2 H) ++ evs
        ++ remainderLoop W (finalDims (W, H) (clampingDim N D)).1
            (min (finalDims (W, H) (clampingDim N D)).2 H) y2
        ++ paddingFill (W, H) (finalDims (W, H) (clampingDim N D)) ∧
      ret = ((finalDims (W, H) (clampingDim N D)).1 / clampingDim N D,
             (finalDims (W, H) (clampingDim N D)).2 / clampingDim N D) := by
  unfold ConvertDEMData at hrun
  simp only [hdims, hext] at hrun
  split at hrun
  · simp only [Option.some.injEq] at hrun
    subst hrun
    simp at hok
  rename_i hz
  refine ⟨hz, ?_⟩
  split at hrun
  · simp only [Option.some.injEq] at hrun
    subst hrun
    simp at hok
  simp only [if_true] at hrun
  split at hrun
  · simp only [Option.some.injEq] at hrun
    subst hrun
    simp at hok
  split at hrun
  · simp at hrun
  · simp only [Option.some.injEq] at hrun
    subst hrun
    simp at hok
  · rename_i evs y2 hb
    simp only [Option.some.injEq] at hrun
    subst hrun
    simp only [Except.ok.injEq] at hok
    exact ⟨evs, y2, hb, rfl, hok.symm⟩

theorem paddingFill_filter (dims fd : UInt2) :
    (paddingFill dims fd).filter Event.isWrite = paddingFill dims fd := by
  apply List.filter_eq_self.mpr
  intro e he
  unfold paddingFill at he
  rcases List.mem_append.mp he with h | h
  · split at h
    · obtain ⟨r, -, rfl⟩ := List.mem_map.mp h
      rfl
    · exact absurd h (List.not_mem_nil e)
  · obtain ⟨r, -, rfl⟩ := List.mem_map.mp h
    rfl

/-- The writes of a run of the header path that returns normally, when the padded
height is at least the source height: the copies of the rows `0 .. H-1` in
increasing order, then the padding fill. -/
theorem convert_hdr_ok_writes (fuel : Nat) (XlAtoI32 : List Char → Int) (sizeT : Nat)
    (input : InputFile) (outputValid : Bool) (N D : Nat) (progress : Option (Nat → Bool))
    (W H : Nat) (run : Run) (ret : UInt2)
    (hext : isHdrExt input.ext = true) (hdims : DEMConfig XlAtoI32 input = (W, H))
    (hH : H ≤ (finalDims (W, H) (clampingDim N D)).2) (hlt : H < 4294967296)
    (hrun : ConvertDEMData fuel XlAtoI32 sizeT input outputValid N D progress = some run)
    (hok : run.result = .ok ret) :
    run.trace.filter Event.isWrite
      = (List.range' 0 H).map (copyRow W (finalDims (W, H) (clampingDim N D)).1)
        ++ paddingFill (W, H) (finalDims (W, H) (clampingDim N D)) := by
  obtain ⟨-, evs, y2, hb, htr, -⟩ :=
    convert_hdr_ok_shape fuel XlAtoI32 sizeT input outputValid N D progress W H run ret
      hext hdims hrun hok
  rw [Nat.min_eq_right hH] at hb htr
  obtain ⟨-, b2, -, -, b5⟩ := batchLoop_ok W _ H progress hlt fuel 0 0 evs y2 (by decide)
    (Nat.zero_le H) hb
  rw [htr, List.filter_append, List.filter_append, List.filter_append, hdrPrologue_filter,
    b5, paddingFill_filter, List.nil_append]
  unfold remainderLoop
  rw [filter_isWrite_map_copyRow, ← List.map_append]
  congr 2
  have hlen : H = (H - y2) + (y2 - 0) := by omega
  have h0 : y2 = 0 + (y2 - 0) := by omega
  conv_rhs => rw [hlen]
  conv_lhs => rw [h0]
  rw [Nat.zero_add, Nat.sub_zero]
  have := List.range'_append_1 0 y2 (H - y2)
  rw [Nat.zero_add] at this
  exact this

/-- The batched loop is left through its condition after `n` batches when the
row counter cannot wrap, `n` batches fit into `copyRows` but `n + 1` do not, the
sink does not cancel at the `n` polls, and `fuel` exceeds `n`. -/
theorem batchLoop_completes (inW outW copyRows : Nat) (sink : Option (Nat → Bool))
    (hnowrap : copyRows < 4294967280) :
    ∀ (n fuel k y2 : Nat), n < fuel → y2 + 16 * n ≤ copyRows → copyRows < y2 + 16 * (n + 1) →
      (∀ c, sink = some c → ∀ i, i < n → c (k + i) = false) →
      ∃ evs, batchLoop inW outW copyRows sink fuel k y2 = some (evs, .ok (y2 + 16 * n)) := by
  intro n
  induction n with
  | zero =>
    intro fuel k y2 hfuel hle hgt _
    obtain ⟨f, rfl⟩ : ∃ f, fuel = f + 1 := ⟨fuel - 1, by omega⟩
    have hadd : addU32 y2 16 = y2 + 16 := by
      unfold addU32
      exact Nat.mod_eq_of_lt (by omega)
    refine ⟨[], ?_⟩
    unfold batchLoop
    rw [hadd, if_neg (by omega)]
    rfl
  | succ n ih =>
    intro fuel k y2 hfuel hle hgt hnc
    obtain ⟨f, rfl⟩ : ∃ f, fuel = f + 1 := ⟨fuel - 1, by omega⟩
    have hadd : addU32 y2 16 = y2 + 16 := by
      unfold addU32
      exact Nat.mod_eq_of_lt (by omega)
    obtain ⟨evs, hevs⟩ := ih f (k + 1) (y2 + 16) (by omega) (by omega) (by omega)
      (fun c hc i hi => by
        have := hnc c hc (i + 1) (by omega)
        rw [show k + 1 + i = k + (i + 1) by omega]
        exact this)
    have hval : y2 + 16 + 16 * n = y2 + 16 * (n + 1) := by omega
    rw [hval] at hevs
    unfold batchLoop
    rw [hadd, if_pos (by omega)]
    cases sink with
    | none =>
      simp only
      rw [hevs]
      exact ⟨_, rfl⟩
    | some c =>
      have h0 : c k = false := by
        have := hnc c rfl 0 (by omega)
        rw [Nat.add_zero] at this
        exact this
      simp only
      rw [if_neg (by simp [h0]), hevs]
      exact ⟨_, rfl⟩

/-- A run of the header path returns normally when the zero-area check passes,
both files can be mapped, the row counter of the batched loop cannot wrap, the
sink (if any) does not cancel at any of the `copyRows / 16` polls, and `fuel`
exceeds the number of batches. -/
theorem convert_hdr_returns (fuel : Nat) (XlAtoI32 : List Char → Int) (sizeT : Nat)
    (input : InputFile) (N D : Nat) (progress : Option (Nat → Bool)) (W H : Nat)
    (hext : isHdrExt input.ext = true) (hdata : input.dataValid = true)
    (hdims : DEMConfig XlAtoI32 input = (W, H)) (hz : mulU32 W H ≠ 0)
    (hnowrap : min (finalDims (W, H) (clampingDim N D)).2 H < 4294967280)
    (hnc : ∀ c, progress = some c →
      ∀ i, i < min (finalDims (W, H) (clampingDim N D)).2 H / 16 → c i = false)
    (hfuel : min (finalDims (W, H) (clampingDim N D)).2 H / 16 < fuel) :
    ∃ tr, ConvertDEMData fuel XlAtoI32 sizeT input true N D progress
      = some ⟨tr, .ok ((finalDims (W, H) (clampingDim N D)).1 / clampingDim N D,
                       (finalDims (W, H) (clampingDim N D)).2 / clampingDim N D)⟩ := by
  obtain ⟨evs, hevs⟩ := batchLoop_completes W (finalDims (W, H) (clampingDim N D)).1
    (min (finalDims (W, H) (clampingDim N D)).2 H) progress hnowrap
    (min (finalDims (W, H) (clampingDim N D)).2 H / 16) fuel 0 0 hfuel (by omega) (by omega)
    (fun c hc i hi => by rw [Nat.zero_add]; exact hnc c hc i hi)
  unfold ConvertDEMData
  simp only [hdims, hext, hdata, if_neg hz]
  rw [hevs]
  exact ⟨_, rfl⟩

/-! ## C2: contents of the output after the header path -/

/-- C2, as the claim states it, fails.  An ASCII header declaring `ncols -3`,
`nrows 3` is probed as the extent (4294967293, 3); with nodeDim 6 and depth 1 the
padded extent is (2, 6).  The run returns normally and every copy and fill has a
valid range, but the source index of row 2 wraps (`2 * 4294967293` is taken
modulo `2 ^ 32`), so the output sample at column 0 of row 2 is the source sample
number 4294967290 and not the source sample at column 0 of row 2, which is number
8589934586.  Samples are numbered by `inp i = i + 1`. -/
theorem hdr_copy_wraps_counterexample :
    DEMConfig (fun v => if v = "3".toList then 3 else -3)
        ⟨some "hdr".toList, "ncols -3\nnrows 3\n".toList, none, true⟩ = (4294967293, 3) ∧
    finalDims (4294967293, 3) (clampingDim 6 1) = (2, 6) ∧
    (ConvertDEMData 1 (fun v => if v = "3".toList then 3 else -3) 18446744073709551616
        ⟨some "hdr".toList, "ncols -3\nnrows 3\n".toList, none, true⟩ true 6 1 none).map
      (fun run => (run.result,
        (applyTrace 0 (fun i => i + 1) (fun _ => []) run.trace (fun _ => 0)).map
          (fun out => out (2 * 2 + 0))))
      = some (.ok (0, 1), some (4294967290 + 1)) ∧
    (4294967290 + 1 ≠ (fun i => i + 1) (2 * 4294967293 + 0)) := by
  decide

/-- C2 (amended): for a header source probed as `(W, H)`, when the padded extent
`(W', H')` computed satisfies `W ≤ W'`, `H ≤ H'` and `W' * H' < 2 ^ 32` (no
wrap-around in the padding and index arithmetic), every run of `ConvertDEMData`
that returns normally leaves an output array whose sample at column `x`, row `y`
(for `x < W'`, `y < H'`) is the source sample at `(x, y)` when `x < W` and
`y < H`, and is exactly `zero` otherwise, whatever the array held before. -/
theorem convert_hdr_payload {α : Type} (zero : α) (inp : Nat → α) (strips : Nat → List α)
    (out0 : Nat → α) (fuel : Nat) (XlAtoI32 : List Char → Int) (sizeT : Nat)
    (input : InputFile) (outputValid : Bool) (N D : Nat) (progress : Option (Nat → Bool))
    (W H : Nat) (run : Run) (ret : UInt2)
    (hext : isHdrExt input.ext = true) (hdims : DEMConfig XlAtoI32 input = (W, H))
    (hW : W ≤ (finalDims (W, H) (clampingDim N D)).1)
    (hH : H ≤ (finalDims (W, H) (clampingDim N D)).2)
    (hfit : (finalDims (W, H) (clampingDim N D)).1 * (finalDims (W, H) (clampingDim N D)).2
      < 4294967296)
    (hrun : ConvertDEMData fuel XlAtoI32 sizeT input outputValid N D progress = some run)
    (hok : run.result = .ok ret) :
    ∃ out, applyTrace zero inp strips run.trace out0 = some out ∧
      ∀ x y, x < (finalDims (W, H) (clampingDim N D)).1 →
        y < (finalDims (W, H) (clampingDim N D)).2 →
        out (y * (finalDims (W, H) (clampingDim N D)).1 + x)
          = if x < W ∧ y < H then inp (y * W + x) else zero := by
  obtain ⟨hz, -⟩ :=
    convert_hdr_ok_shape fuel XlAtoI32 sizeT input outputValid N D progress W H run ret
      hext hdims hrun hok
  have hWpos : 0 < W := by
    rcases Nat.eq_zero_or_pos W with h0 | h0
    · exact absurd (by rw [h0]; simp [mulU32]) hz
    · exact h0
  have hfit2 : (finalDims (W, H) (clampingDim N D)).2 * (finalDims (W, H) (clampingDim N D)).1
      < 4294967296 := by rw [Nat.mul_comm]; exact hfit
  have hH1 : (finalDims (W, H) (clampingDim N D)).2 < 4294967296 := by
    have := Nat.le_mul_of_pos_right (finalDims (W, H) (clampingDim N D)).2
      (Nat.lt_of_lt_of_le hWpos hW)
    omega
  rw [applyTrace_filter,
    convert_hdr_ok_writes fuel XlAtoI32 sizeT input outputValid N D progress W H run ret
      hext hdims hH (by omega) hrun hok]
  exact applyTrace_copy_pad zero inp strips hW hH hfit2 out0

/-- The amended C2 on a 3 x 3 source (`ncols 3`, `nrows 3`) with nodeDim 4 and
depth 1: the run returns (1, 1) and the 4 x 4 output holds the source samples in
its upper left 3 x 3 block and zero elsewhere. -/
theorem convert_hdr_payload_witness :
    ∃ out, applyTrace (0 : Nat) (fun i => i + 1) (fun _ => [])
        (hdrPrologue none 18446744073709551616 (4, 4) 3 ++ []
          ++ remainderLoop 3 4 3 0 ++ paddingFill (3, 3) (4, 4)) (fun _ => 9) = some out ∧
      ∀ x y, x < (finalDims (3, 3) (clampingDim 4 1)).1 →
        y < (finalDims (3, 3) (clampingDim 4 1)).2 →
        out (y * (finalDims (3, 3) (clampingDim 4 1)).1 + x)
          = if x < 3 ∧ y < 3 then (fun i => i + 1) (y * 3 + x) else 0 :=
  convert_hdr_payload (0 : Nat) (fun i => i + 1) (fun _ => []) (fun _ => 9) 1 (fun _ => 3)
    18446744073709551616 ⟨some "hdr".toList, "ncols 3\nnrows 3\n".toList, none, true⟩ true 4 1
    none 3 3
    ⟨hdrPrologue none 18446744073709551616 (4, 4) 3 ++ []
      ++ remainderLoop 3 4 3 0 ++ paddingFill (3, 3) (4, 4), .ok (1, 1)⟩ (1, 1)
    (by decide) (by decide) (by decide) (by decide) (by decide) (by rfl) rfl

/-! ## Lemmas shared by the claims on the header, the size and the checks -/

theorem intToU32_lt (i : Int) : intToU32 i < 4294967296 := by
  unfold intToU32
  have h1 : 0 ≤ i % 4294967296 := Int.emod_nonneg i (by decide)
  have h2 : i % 4294967296 < 4294967296 := Int.emod_lt_of_pos i (by decide)
  omega

theorem demStep_lt (XlAtoI32 : List Char → Int) (dims : UInt2) (p : List Char × List Char)
    (h : dims.1 < 4294967296 ∧ dims.2 < 4294967296) :
    (demStep XlAtoI32 dims p).1 < 4294967296 ∧ (demStep XlAtoI32 dims p).2 < 4294967296 := by
  have hi := intToU32_lt (XlAtoI32 (cStr p.2))
  unfold demStep
  by_cases h1 : XlCompareStringI p.1 "ncols".toList = 0 <;>
    by_cases h2 : XlCompareStringI p.1 "nrows".toList = 0 <;>
    simp only [h1, h2, if_true, if_false] <;> exact ⟨by first | exact hi | exact h.1,
      by first | exact hi | exact h.2⟩

theorem foldl_demStep_lt (XlAtoI32 : List Char → Int) (ps : List (List Char × List Char))
    (dims : UInt2) (h : dims.1 < 4294967296 ∧ dims.2 < 4294967296) :
    (ps.foldl (demStep XlAtoI32) dims).1 < 4294967296 ∧
    (ps.foldl (demStep XlAtoI32) dims).2 < 4294967296 := by
  induction ps generalizing dims with
  | nil => exact h
  | cons p ps ih => exact ih _ (demStep_lt XlAtoI32 dims p h)

/-- Both components of a probed extent are values of `unsigned`. -/
theorem DEMConfig_lt (XlAtoI32 : List Char → Int) (input : InputFile) :
    (DEMConfig XlAtoI32 input).1 < 4294967296 ∧ (DEMConfig XlAtoI32 input).2 < 4294967296 := by
  unfold DEMConfig
  split
  · exact foldl_demStep_lt XlAtoI32 _ (0, 0) ⟨by decide, by decide⟩
  · split
    · split
      · exact ⟨Nat.mod_lt _ (by decide), Nat.mod_lt _ (by decide)⟩
      · exact ⟨by decide, by decide⟩
    · exact ⟨by decide, by decide⟩

theorem padDim_lt {d c : Nat} (h : d < 4294967296) : padDim d c < 4294967296 := by
  unfold padDim
  split
  · unfold addU32
    exact Nat.mod_lt _ (by decide)
  · exact h

theorem u32_bytes_roundtrip {n : Nat} (h : n < 4294967296) :
    n % 256 + 256 * (n / 256 % 256) + 65536 * (n / 65536 % 256)
      + 16777216 * (n / 16777216 % 256) = n := by
  omega

/-- Reading back a header whose four fields are values of `unsigned`. -/
theorem headerOfBytes_headerBytes (h : TerrainUberHeader) (rest : List Nat)
    (h1 : h._magic < 4294967296) (h2 : h._width < 4294967296) (h3 : h._height < 4294967296)
    (h4 : h._dummy < 4294967296) :
    readHeader (headerBytes h ++ rest) = some h := by
  unfold readHeader
  have hlen : sizeofHeader ≤ (headerBytes h ++ rest).length := by
    simp [headerBytes, bytesOfU32, sizeofHeader]
  rw [if_pos hlen]
  obtain ⟨m, w, ht, d⟩ := h
  simp only at h1 h2 h3 h4
  simp [headerBytes, bytesOfU32, sizeofHeader, headerOfBytes, u32OfBytes,
    u32_bytes_roundtrip h1, u32_bytes_roundtrip h2, u32_bytes_roundtrip h3,
    u32_bytes_roundtrip h4]

theorem getUberSurfaceDimensions_headerBytes (w h : Nat) (rest : List Nat)
    (hw : w < 4294967296) (hh : h < 4294967296) :
    GetUberSurfaceDimensions (headerBytes ⟨TerrainUberHeader.Magic, w, h, 0⟩ ++ rest)
      = .ok (w, h) := by
  unfold GetUberSurfaceDimensions
  have hm : TerrainUberHeader.Magic < 4294967296 := by decide
  have hd : (0 : Nat) < 4294967296 := by decide
  rw [headerOfBytes_headerBytes ⟨TerrainUberHeader.Magic, w, h, 0⟩ rest hm hw hh hd]
  simp

theorem writtenHeader_prologue (progress : Option (Nat → Bool)) (size : Nat)
    (h : TerrainUberHeader) (rest : List Event) :
    writtenHeader (whenProgress progress [Event.beginStep 1 false]
      ++ ([Event.createDirectory, Event.createFile size] ++ ([Event.writeHeader h] ++ rest)))
      = some h := by
  cases progress <;> simp [whenProgress, writtenHeader]

theorem batchLoop_error (inW outW copyRows : Nat) (sink : Option (Nat → Bool)) :
    ∀ (fuel k y2 : Nat) (evs : List Event) (e : Failure),
      batchLoop inW outW copyRows sink fuel k y2 = some (evs, .error e) → e = .userCancelled := by
  intro fuel
  induction fuel with
  | zero => intro k y2 evs e h; simp [batchLoop] at h
  | succ fuel ih =>
    intro k y2 evs e h
    unfold batchLoop at h
    split at h
    · cases sink with
      | none =>
        simp only at h
        cases hrec : batchLoop inW outW copyRows none fuel (k + 1) (addU32 y2 16) with
        | none => rw [hrec] at h; simp at h
        | some r =>
          rw [hrec] at h
          simp only [Option.map_some', Option.some.injEq, Prod.mk.injEq] at h
          obtain ⟨r1, r2⟩ := r
          exact ih (k + 1) (addU32 y2 16) r1 e (by rw [hrec]; simp [← h.2])
      | some cancelled =>
        simp only at h
        by_cases hc : cancelled k = true
        · rw [if_pos hc] at h
          simp only [Option.some.injEq, Prod.mk.injEq, Except.error.injEq] at h
          exact h.2.symm
        · rw [if_neg hc] at h
          cases hrec : batchLoop inW outW copyRows (some cancelled) fuel (k + 1)
            (addU32 y2 16) with
          | none => rw [hrec] at h; simp at h
          | some r =>
            rw [hrec] at h
            simp only [Option.map_some', Option.some.injEq, Prod.mk.injEq] at h
            obtain ⟨r1, r2⟩ := r
            exact ih (k + 1) (addU32 y2 16) r1 e (by rw [hrec]; simp [← h.2])
    · simp at h

theorem stripLoop_error (rowsperstrip outW : Nat) (sink : Option (Nat → Bool))
    (strips : List Nat) (e : Failure)
    (h : (stripLoop rowsperstrip outW sink strips).2 = .error e) : e = .userCancelled := by
  induction strips with
  | nil => simp [stripLoop] at h
  | cons s rest ih =>
    unfold stripLoop at h
    cases sink with
    | none => exact ih h
    | some cancelled =>
      simp only at h
      by_cases hc : cancelled s = true
      · rw [if_pos hc] at h
        simp only [Except.error.injEq] at h
        exact h.symm
      · rw [if_neg hc] at h
        exact ih h

/-- Every run that returns normally, on any of the paths, has passed the
zero-area check, has created the file with the size of lines 126-129, has written
the header with the padded extent, and returns the padded extent divided by the
clamping dimension. -/
theorem convert_ok_shape (fuel : Nat) (XlAtoI32 : List Char → Int) (sizeT : Nat)
    (input : InputFile) (outputValid : Bool) (N D : Nat) (progress : Option (Nat → Bool))
    (run : Run) (ret : UInt2)
    (hrun : ConvertDEMData fuel XlAtoI32 sizeT input outputValid N D progress = some run)
    (hok : run.result = .ok ret) :
    mulU32 (DEMConfig XlAtoI32 input).1 (DEMConfig XlAtoI32 input).2 ≠ 0 ∧
    ret = ((finalDims (DEMConfig XlAtoI32 input) (clampingDim N D)).1 / clampingDim N D,
           (finalDims (DEMConfig XlAtoI32 input) (clampingDim N D)).2 / clampingDim N D) ∧
    ∃ rest, run.trace = whenProgress progress [Event.beginStep 1 false]
      ++ ([Event.createDirectory,
            Event.createFile (resultSize sizeT (finalDims (DEMConfig XlAtoI32 input)
              (clampingDim N D)))]
        ++ ([Event.writeHeader ⟨TerrainUberHeader.Magic,
              (finalDims (DEMConfig XlAtoI32 input) (clampingDim N D)).1,
              (finalDims (DEMConfig XlAtoI32 input) (clampingDim N D)).2, 0⟩] ++ rest)) := by
  unfold ConvertDEMData at hrun
  simp only at hrun
  split at hrun
  · simp only [Option.some.injEq] at hrun
    subst hrun
    simp at hok
  rename_i hz
  refine ⟨hz, ?_⟩
  split at hrun
  · simp only [Option.some.injEq] at hrun
    subst hrun
    simp at hok
  split at hrun
  · split at hrun
    · simp only [Option.some.injEq] at hrun
      subst hrun
      simp at hok
    split at hrun
    · simp at hrun
    · simp only [Option.some.injEq] at hrun
      subst hrun
      simp at hok
    · simp only [Option.some.injEq] at hrun
      subst hrun
      simp only [Except.ok.injEq] at hok
      refine ⟨hok.symm, ?_⟩
      dsimp only
      simp only [List.append_assoc]
      exact ⟨_, rfl⟩
  · split at hrun
    · split at hrun
      · simp only [Option.some.injEq] at hrun
        subst hrun
        simp at hok
      · split at hrun
        · simp only [Option.some.injEq] at hrun
          subst hrun
          simp at hok
        · simp only [Option.some.injEq] at hrun
          subst hrun
          simp only [Except.ok.injEq] at hok
          refine ⟨hok.symm, ?_⟩
          dsimp only
          simp only [List.append_assoc]
          exact ⟨_, rfl⟩
    · simp only [Option.some.injEq] at hrun
      subst hrun
      simp only [Except.ok.injEq] at hok
      refine ⟨hok.symm, ?_⟩
      dsimp only
      simp only [List.append_assoc]
      exact ⟨_, rfl⟩

/-! ## C3: contents of the output after the strip path -/

/-- C3 at a failing input: a 3 x 2 image stored as one strip of 2 rows, decoded to
the six samples 1 .. 6 (row 0 is 1 2 3, row 1 is 4 5 6), converted with nodeDim 4
and depth 1 into a 4 x 4 output that held 9 everywhere.  The run returns (1, 1).
The strip is written contiguously from offset 0, so row 1 of the source starts
at output index 3 instead of 4: the output sample at column 0 of row 1 is 5 (the
claim requires 4), the one at column 1 is 6 (the claim requires 5), and the one
at column 2 is still the old content 9 (the claim requires 6); the padding fill
then zeroes index 3, which held the source sample 4. -/
theorem tif_strip_rows_misplaced :
    (ConvertDEMData 0 (fun _ => 0) 18446744073709551616
        ⟨some "tif".toList, [], some ⟨some 3, some 2, 2, 1⟩, true⟩ true 4 1 none).map
      (fun run => (run.result,
        (applyTrace 0 (fun _ => 0) (fun s => if s = 0 then [1, 2, 3, 4, 5, 6] else [])
            run.trace (fun _ => 9)).map
          (fun out => ((List.range 8).map out))))
      = some (.ok (1, 1), some [1, 2, 3, 0, 5, 6, 9, 0]) := by
  decide

/-! ## C4: the divisibility check of `GenerateStarterCells` -/

/-- C4: when the heights file yields the extent `(w, h)` and the cell size computed
at line 268 is `N * 2 ^ (D - 1) > 0` with `D ≥ 1`, `GenerateStarterCells` throws
the "not divisable" exception exactly when `w` or `h` is not a multiple of the cell
size, and otherwise builds a configuration whose cell grid extent is
`(w / cell, h / cell)`. -/
theorem generateStarterCells_divisibility {F : Type} (heightsFile : List Nat)
    (uberSurfaceFN : Nat → List Char) (N D overlap : Nat) (spacing : F)
    (layers : List (Nat × Nat)) (w h : Nat)
    (hread : GetUberSurfaceDimensions heightsFile = .ok (w, h))
    (_hD : 1 ≤ D) (hcell : cellDimsInEles N D = N * 2 ^ (D - 1))
    (_hpos : 0 < N * 2 ^ (D - 1)) :
    ((∃ e, GenerateStarterCells heightsFile uberSurfaceFN N D overlap spacing layers = .error e)
        ↔ (w % (N * 2 ^ (D - 1)) ≠ 0 ∨ h % (N * 2 ^ (D - 1)) ≠ 0)) ∧
    ((w % (N * 2 ^ (D - 1)) ≠ 0 ∨ h % (N * 2 ^ (D - 1)) ≠ 0) →
      GenerateStarterCells heightsFile uberSurfaceFN N D overlap spacing layers
        = .error (.notDivisible w h (N * 2 ^ (D - 1)))) ∧
    (¬ (w % (N * 2 ^ (D - 1)) ≠ 0 ∨ h % (N * 2 ^ (D - 1)) ≠ 0) →
      ∃ cfg, GenerateStarterCells heightsFile uberSurfaceFN N D overlap spacing layers = .ok cfg ∧
        cfg.cellCount = (w / (N * 2 ^ (D - 1)), h / (N * 2 ^ (D - 1)))) := by
  unfold GenerateStarterCells
  rw [hread]
  simp only [hcell]
  by_cases hdiv : w % (N * 2 ^ (D - 1)) ≠ 0 ∨ h % (N * 2 ^ (D - 1)) ≠ 0
  · rw [if_pos hdiv]
    exact ⟨⟨fun _ => hdiv, fun _ => ⟨_, rfl⟩⟩, fun _ => rfl, fun hn => absurd hdiv hn⟩
  · rw [if_neg hdiv]
    refine ⟨⟨?_, fun hd => absurd hd hdiv⟩, fun hd => absurd hd hdiv, fun _ => ⟨_, rfl, rfl⟩⟩
    rintro ⟨e, he⟩
    cases he

/-- C4 on the heights file of a 128 x 128 uber-surface with nodeDim 32 and depth 1:
the check passes and the cell grid extent is (4, 4); and on a 100 x 128 one, where
it throws. -/
theorem generateStarterCells_divisibility_witness :
    (∃ cfg, GenerateStarterCells (F := Nat)
        (headerBytes ⟨TerrainUberHeader.Magic, 128, 128, 0⟩ ++ [0, 0, 0, 0])
        (fun _ => []) 32 1 2 10 [] = .ok cfg ∧
      cfg.cellCount = (128 / (32 * 2 ^ (1 - 1)), 128 / (32 * 2 ^ (1 - 1)))) ∧
    GenerateStarterCells (F := Nat)
        (headerBytes ⟨TerrainUberHeader.Magic, 100, 128, 0⟩ ++ [0, 0, 0, 0])
        (fun _ => []) 32 1 2 10 [] = .error (.notDivisible 100 128 (32 * 2 ^ (1 - 1))) :=
  ⟨(generateStarterCells_divisibility (F := Nat)
      (headerBytes ⟨TerrainUberHeader.Magic, 128, 128, 0⟩ ++ [0, 0, 0, 0])
      (fun _ => []) 32 1 2 10 [] 128 128 (by decide) (by decide) (by decide) (by decide)).2.2
      (by decide),
   (generateStarterCells_divisibility (F := Nat)
      (headerBytes ⟨TerrainUberHeader.Magic, 100, 128, 0⟩ ++ [0, 0, 0, 0])
      (fun _ => []) 32 1 2 10 [] 100 128 (by decide) (by decide) (by decide) (by decide)).2.1
      (by decide)⟩

/-! ## C5: the padded extent passes the planner's check -/

/-- C5, as the claim states it, fails.  A header declaring `ncols -1`, `nrows 1`
is probed as the extent (4294967295, 1), both components positive; with nodeDim 7
and depth 1 the padded width wraps to 3, the run returns (0, 1) after writing the
header extent (3, 7), and `GenerateStarterCells` with the same nodeDim and depth
throws the "not divisable" exception on that header. -/
theorem padded_extent_not_divisible_counterexample :
    DEMConfig (fun v => if v = "1".toList then 1 else -1)
        ⟨some "hdr".toList, "ncols -1\nnrows 1\n".toList, none, true⟩ = (4294967295, 1) ∧
    (ConvertDEMData 1 (fun v => if v = "1".toList then 1 else -1) 18446744073709551616
        ⟨some "hdr".toList, "ncols -1\nnrows 1\n".toList, none, true⟩ true 7 1 none).map
      (fun run => (run.result, writtenHeader run.trace))
      = some (.ok (0, 1), some ⟨TerrainUberHeader.Magic, 3, 7, 0⟩) ∧
    GenerateStarterCells (headerBytes ⟨TerrainUberHeader.Magic, 3, 7, 0⟩ ++ List.replicate 84 0)
        (fun _ => []) 7 1 0 (0 : Nat) []
      = .error (.notDivisible 3 7 7) := by
  decide

/-- C5 (amended): for nodeDim `N > 0`, depth `D ≥ 1` and a probed extent `(W, H)`
with `W, H > 0`, provided a multiple of `c = N * 2 ^ (D - 1)` lies between `W`
and `2 ^ 32` and one between `H` and `2 ^ 32`, every run of `ConvertDEMData` that
returns normally has written the header extent `(W', H')`, and on any file that
begins with this header `GenerateStarterCells` with the same `N` and `D` passes
its divisibility check and builds a configuration whose cell grid extent is the
value `ConvertDEMData` returned; that value times `c` is `(W', H')`. -/
theorem convert_then_plan {F : Type} (fuel : Nat) (XlAtoI32 : List Char → Int) (sizeT : Nat)
    (input : InputFile) (outputValid : Bool) (N D : Nat) (progress : Option (Nat → Bool))
    (W H : Nat) (run : Run) (ret : UInt2)
    (uberSurfaceFN : Nat → List Char) (overlap : Nat) (spacing : F) (layers : List (Nat × Nat))
    (hN : 0 < N) (hD : 1 ≤ D) (hdims : DEMConfig XlAtoI32 input = (W, H))
    (hW : 0 < W) (hH : 0 < H)
    (hWfit : ∃ k, W ≤ k * (N * 2 ^ (D - 1)) ∧ k * (N * 2 ^ (D - 1)) < 4294967296)
    (hHfit : ∃ k, H ≤ k * (N * 2 ^ (D - 1)) ∧ k * (N * 2 ^ (D - 1)) < 4294967296)
    (hrun : ConvertDEMData fuel XlAtoI32 sizeT input outputValid N D progress = some run)
    (hok : run.result = .ok ret) :
    writtenHeader run.trace = some ⟨TerrainUberHeader.Magic,
      (finalDims (W, H) (clampingDim N D)).1, (finalDims (W, H) (clampingDim N D)).2, 0⟩ ∧
    ∀ payload : List Nat, ∃ cfg,
      GenerateStarterCells (headerBytes ⟨TerrainUberHeader.Magic,
          (finalDims (W, H) (clampingDim N D)).1, (finalDims (W, H) (clampingDim N D)).2, 0⟩
          ++ payload) uberSurfaceFN N D overlap spacing layers = .ok cfg ∧
      cfg.cellCount = ret ∧
      ret.1 * (N * 2 ^ (D - 1)) = (finalDims (W, H) (clampingDim N D)).1 ∧
      ret.2 * (N * 2 ^ (D - 1)) = (finalDims (W, H) (clampingDim N D)).2 := by
  have hcpos : 0 < N * 2 ^ (D - 1) := Nat.mul_pos hN (Nat.pow_pos (by decide))
  have hc : clampingDim N D = N * 2 ^ (D - 1) := clampingDim_eq hN hD (clamping_fits hW hWfit)
  obtain ⟨-, hm1, -, hlt1⟩ := padDim_spec hcpos hWfit
  obtain ⟨-, hm2, -, hlt2⟩ := padDim_spec hcpos hHfit
  have _hHpos := hH
  rw [← hc] at hm1 hm2 hlt1 hlt2
  obtain ⟨-, hret, rest, htr⟩ :=
    convert_ok_shape fuel XlAtoI32 sizeT input outputValid N D progress run ret hrun hok
  rw [hdims] at hret htr
  refine ⟨by rw [htr]; exact writtenHeader_prologue _ _ _ _, ?_⟩
  intro payload
  unfold GenerateStarterCells
  rw [getUberSurfaceDimensions_headerBytes (finalDims (W, H) (clampingDim N D)).1
    (finalDims (W, H) (clampingDim N D)).2 payload hlt1 hlt2]
  simp only [cellDimsInEles_eq_clampingDim]
  have hd1 : (finalDims (W, H) (clampingDim N D)).1 % clampingDim N D = 0 := hm1
  have hd2 : (finalDims (W, H) (clampingDim N D)).2 % clampingDim N D = 0 := hm2
  have hnot : ¬ ((finalDims (W, H) (clampingDim N D)).1 % clampingDim N D ≠ 0 ∨
      (finalDims (W, H) (clampingDim N D)).2 % clampingDim N D ≠ 0) := by
    rintro (h | h)
    · exact h hd1
    · exact h hd2
  rw [if_neg hnot]
  refine ⟨_, rfl, ?_, ?_, ?_⟩
  · rw [hret]
  · rw [hret, ← hc]
    exact Nat.div_mul_cancel (Nat.dvd_of_mod_eq_zero hd1)
  · rw [hret, ← hc]
    exact Nat.div_mul_cancel (Nat.dvd_of_mod_eq_zero hd2)

/-- The amended C5 on the scenario of the specification: a 100 x 100 header source,
nodeDim 32, depth 1.  The padded extent is (128, 128) and the cell grid extent the
planner derives is (4, 4), the value returned by the converter. -/
theorem convert_then_plan_witness :
    finalDims (100, 100) (clampingDim 32 1) = (128, 128) ∧
    (writtenHeader (hdrPrologue none 18446744073709551616 (128, 128) 100
        ++ (List.range' 0 96).map (copyRow 100 128)
        ++ remainderLoop 100 128 100 96 ++ paddingFill (100, 100) (128, 128))
      = some ⟨TerrainUberHeader.Magic,
        (finalDims (100, 100) (clampingDim 32 1)).1,
        (finalDims (100, 100) (clampingDim 32 1)).2, 0⟩ ∧
    ∀ payload : List Nat, ∃ cfg,
      GenerateStarterCells (headerBytes ⟨TerrainUberHeader.Magic,
          (finalDims (100, 100) (clampingDim 32 1)).1,
          (finalDims (100, 100) (clampingDim 32 1)).2, 0⟩
          ++ payload) (fun _ => []) 32 1 2 (10 : Nat) [] = .ok cfg ∧
      cfg.cellCount = (4, 4) ∧
      (4, 4).1 * (32 * 2 ^ (1 - 1)) = (finalDims (100, 100) (clampingDim 32 1)).1 ∧
      (4, 4).2 * (32 * 2 ^ (1 - 1)) = (finalDims (100, 100) (clampingDim 32 1)).2) :=
  ⟨by decide,
   convert_then_plan 7 (fun _ => 100) 18446744073709551616
    ⟨some "hdr".toList, "ncols 100\nnrows 100\n".toList, none, true⟩ true 32 1 none 100 100
    ⟨hdrPrologue none 18446744073709551616 (128, 128) 100
        ++ (List.range' 0 96).map (copyRow 100 128)
        ++ remainderLoop 100 128 100 96 ++ paddingFill (100, 100) (128, 128), .ok (4, 4)⟩
    (4, 4) (fun _ => []) 2 (10 : Nat) [] (by decide) (by decide) (by decide) (by decide)
    (by decide) ⟨4, by decide, by decide⟩ ⟨4, by decide, by decide⟩ (by rfl) rfl⟩

/-! ## C6: the zero-area check -/

/-- A run that ends with the "Bad or missing input" exception has found the 32-bit
product of the probed dimensions to be zero. -/
theorem convert_badInput_product (fuel : Nat) (XlAtoI32 : List Char → Int) (sizeT : Nat)
    (input : InputFile) (outputValid : Bool) (N D : Nat) (progress : Option (Nat → Bool))
    (run : Run)
    (hrun : ConvertDEMData fuel XlAtoI32 sizeT input outputValid N D progress = some run)
    (hbad : run.result = .error .badInput) :
    mulU32 (DEMConfig XlAtoI32 input).1 (DEMConfig XlAtoI32 input).2 = 0 := by
  unfold ConvertDEMData at hrun
  simp only at hrun
  split at hrun
  · assumption
  split at hrun
  · simp only [Option.some.injEq] at hrun
    subst hrun
    simp at hbad
  split at hrun
  · split at hrun
    · simp only [Option.some.injEq] at hrun
      subst hrun
      simp at hbad
    split at hrun
    · simp at hrun
    · rename_i evs e hb
      simp only [Option.some.injEq] at hrun
      subst hrun
      simp only [Except.error.injEq] at hbad
      have := batchLoop_error _ _ _ _ _ _ _ _ _ hb
      rw [hbad] at this
      cases this
    · simp only [Option.some.injEq] at hrun
      subst hrun
      simp at hbad
  · split at hrun
    · split at hrun
      · simp only [Option.some.injEq] at hrun
        subst hrun
        simp at hbad
      · split at hrun
        · rename_i evs e hs
          simp only [Option.some.injEq] at hrun
          subst hrun
          simp only [Except.error.injEq] at hbad
          have := stripLoop_error _ _ _ _ e (by rw [hs])
          rw [hbad] at this
          cases this
        · simp only [Option.some.injEq] at hrun
          subst hrun
          simp at hbad
    · simp only [Option.some.injEq] at hrun
      subst hrun
      simp at hbad

/-- C6, as the claim states it, fails: a header declaring `ncols 65536`,
`nrows 65536` is probed as (65536, 65536), both dimensions positive, and
`ConvertDEMData` throws the "Bad or missing input" exception, because the 32-bit
product of the two is 0. -/
theorem zero_area_check_counterexample :
    DEMConfig (fun _ => 65536)
        ⟨some "hdr".toList, "ncols 65536\nnrows 65536\n".toList, none, true⟩ = (65536, 65536) ∧
    0 < 65536 ∧
    (ConvertDEMData 1 (fun _ => 65536) 18446744073709551616
        ⟨some "hdr".toList, "ncols 65536\nnrows 65536\n".toList, none, true⟩ true 1 1 none).map
      (fun run => (run.trace, run.result)) = some ([], .error .badInput) := by
  decide

/-- C6 (amended): `ConvertDEMData` throws the "Bad or missing input" exception
exactly when the 32-bit product of the probed width and height is 0, and it does
so before any other effect than opening the first progress step; when the exact
product is below `2 ^ 32` this is exactly when the width or the height is 0, so
that every such extent with both dimensions positive passes the check. -/
theorem zero_area_check (fuel : Nat) (XlAtoI32 : List Char → Int) (sizeT : Nat)
    (input : InputFile) (outputValid : Bool) (N D : Nat) (progress : Option (Nat → Bool)) :
    ((∃ tr, ConvertDEMData fuel XlAtoI32 sizeT input outputValid N D progress
          = some ⟨tr, .error .badInput⟩)
      ↔ mulU32 (DEMConfig XlAtoI32 input).1 (DEMConfig XlAtoI32 input).2 = 0) ∧
    (mulU32 (DEMConfig XlAtoI32 input).1 (DEMConfig XlAtoI32 input).2 = 0 →
      ConvertDEMData fuel XlAtoI32 sizeT input outputValid N D progress
        = some ⟨whenProgress progress [Event.beginStep 1 false], .error .badInput⟩) ∧
    ((DEMConfig XlAtoI32 input).1 * (DEMConfig XlAtoI32 input).2 < 4294967296 →
      (mulU32 (DEMConfig XlAtoI32 input).1 (DEMConfig XlAtoI32 input).2 = 0
        ↔ ((DEMConfig XlAtoI32 input).1 = 0 ∨ (DEMConfig XlAtoI32 input).2 = 0))) := by
  have hthrow : mulU32 (DEMConfig XlAtoI32 input).1 (DEMConfig XlAtoI32 input).2 = 0 →
      ConvertDEMData fuel XlAtoI32 sizeT input outputValid N D progress
        = some ⟨whenProgress progress [Event.beginStep 1 false], .error .badInput⟩ := by
    intro hz
    unfold ConvertDEMData
    simp only [hz, if_true]
  refine ⟨⟨?_, fun hz => ⟨_, hthrow hz⟩⟩, hthrow, ?_⟩
  · rintro ⟨tr, htr⟩
    exact convert_badInput_product fuel XlAtoI32 sizeT input outputValid N D progress _ htr rfl
  · intro hfit
    unfold mulU32
    rw [Nat.mod_eq_of_lt hfit]
    exact Nat.mul_eq_zero

/-! ## C7: the requested file size -/

/-- C7 at a failing input: a header declaring `ncols 65537`, `nrows 65536`,
converted with nodeDim 1 and depth 1 (so that the padded extent is the source
extent) and a progress object that cancels at its first poll.  The zero-area
check passes, and the file is created with `resultSize = 262160` bytes, whether
`size_t` has 64 or 32 bits, although the header and 65537 * 65536 samples of 4
bytes take 17180131344 bytes: `finalDims[0] * finalDims[1]` is a 32-bit product
and equals 65536. -/
theorem resultSize_truncated :
    DEMConfig (fun v => if v = "65537".toList then 65537 else 65536)
        ⟨some "hdr".toList, "ncols 65537\nnrows 65536\n".toList, none, true⟩ = (65537, 65536) ∧
    (ConvertDEMData 1 (fun v => if v = "65537".toList then 65537 else 65536)
        18446744073709551616
        ⟨some "hdr".toList, "ncols 65537\nnrows 65536\n".toList, none, true⟩ true 1 1
        (some (fun _ => true))).map (fun run => (run.trace.take 4, run.result))
      = some ([Event.beginStep 1 false, Event.createDirectory, Event.createFile 262160,
          Event.writeHeader ⟨TerrainUberHeader.Magic, 65537, 65536, 0⟩],
          .error .userCancelled) ∧
    resultSize 18446744073709551616 (65537, 65536) = 262160 ∧
    resultSize 4294967296 (65537, 65536) = 262160 ∧
    sizeofHeader + 65537 * 65536 * sizeofFloat = 17180131344 := by
  decide

/-! ## C8: round trip of the header -/

/-- C8: every run of `ConvertDEMData` that returns normally has written the header
`{Magic, W', H', 0}` for the padded extent `(W', H')` it computed, and
`GetUberSurfaceDimensions` on any file that begins with the 16 bytes of this
header returns `(W', H')`. -/
theorem header_roundtrip (fuel : Nat) (XlAtoI32 : List Char → Int) (sizeT : Nat)
    (input : InputFile) (outputValid : Bool) (N D : Nat) (progress : Option (Nat → Bool))
    (run : Run) (ret : UInt2)
    (hrun : ConvertDEMData fuel XlAtoI32 sizeT input outputValid N D progress = some run)
    (hok : run.result = .ok ret) :
    writtenHeader run.trace = some ⟨TerrainUberHeader.Magic,
      (finalDims (DEMConfig XlAtoI32 input) (clampingDim N D)).1,
      (finalDims (DEMConfig XlAtoI32 input) (clampingDim N D)).2, 0⟩ ∧
    ∀ payload : List Nat,
      GetUberSurfaceDimensions (headerBytes ⟨TerrainUberHeader.Magic,
          (finalDims (DEMConfig XlAtoI32 input) (clampingDim N D)).1,
          (finalDims (DEMConfig XlAtoI32 input) (clampingDim N D)).2, 0⟩ ++ payload)
        = .ok ((finalDims (DEMConfig XlAtoI32 input) (clampingDim N D)).1,
               (finalDims (DEMConfig XlAtoI32 input) (clampingDim N D)).2) := by
  obtain ⟨-, -, rest, htr⟩ :=
    convert_ok_shape fuel XlAtoI32 sizeT input outputValid N D progress run ret hrun hok
  obtain ⟨h1, h2⟩ := DEMConfig_lt XlAtoI32 input
  refine ⟨by rw [htr]; exact writtenHeader_prologue _ _ _ _, fun payload => ?_⟩
  exact getUberSurfaceDimensions_headerBytes _ _ payload (padDim_lt h1) (padDim_lt h2)

/-- C8 on a 3 x 3 header source with nodeDim 4 and depth 1: the header written
carries the extent (4, 4) and is read back as (4, 4). -/
theorem header_roundtrip_witness :
    writtenHeader (hdrPrologue none 18446744073709551616 (4, 4) 3 ++ []
        ++ remainderLoop 3 4 3 0 ++ paddingFill (3, 3) (4, 4))
      = some ⟨TerrainUberHeader.Magic, 4, 4, 0⟩ ∧
    ∀ payload : List Nat,
      GetUberSurfaceDimensions (headerBytes ⟨TerrainUberHeader.Magic, 4, 4, 0⟩ ++ payload)
        = .ok (4, 4) :=
  header_roundtrip 1 (fun _ => 3) 18446744073709551616
    ⟨some "hdr".toList, "ncols 3\nnrows 3\n".toList, none, true⟩ true 4 1 none
    ⟨hdrPrologue none 18446744073709551616 (4, 4) 3 ++ []
      ++ remainderLoop 3 4 3 0 ++ paddingFill (3, 3) (4, 4), .ok (1, 1)⟩ (1, 1) (by rfl) rfl

/-! ## C9: parsing of the ASCII header -/

/-- A run of characters that satisfy `p`, followed by nothing or by a character
that does not, is what `takeWhile p` takes and `dropWhile p` leaves the rest. -/
theorem takeWhile_dropWhile_run (p : Char → Bool) (xs ys : List Char)
    (hx : ∀ a ∈ xs, p a = true) (hy : ∀ c, ys.head? = some c → p c = false) :
    (xs ++ ys).takeWhile p = xs ∧ (xs ++ ys).dropWhile p = ys := by
  induction xs with
  | nil =>
    cases ys with
    | nil => exact ⟨rfl, rfl⟩
    | cons c cs =>
      have hc := hy c rfl
      exact ⟨by simp [List.takeWhile, hc], by simp [List.dropWhile, hc]⟩
  | cons a t ih =>
    have ha := hx a (List.mem_cons_self a t)
    obtain ⟨h1, h2⟩ := ih (fun x hx2 => hx x (List.mem_cons_of_mem a hx2))
    exact ⟨by rw [List.cons_append, List.takeWhile_cons_of_pos ha, h1],
      by rw [List.cons_append, List.dropWhile_cons_of_pos ha, h2]⟩

/-- On a well-formed line followed by nothing or by a line terminator the
pattern matches the token, the gap and the value, and leaves the rest unread. -/
theorem matchHere_line (l : HdrLine) (rest : List Char) (hwf : wellFormedLine l = true)
    (hrest : ∀ c, rest.head? = some c → isLineTerminator c = true) :
    matchHere (l.token ++ (l.gap ++ (l.value ++ rest))) = some (l.token, l.gap, l.value, rest) := by
  obtain ⟨tok, gap, val, eol⟩ := l
  simp only [wellFormedLine, Bool.and_eq_true, Bool.not_eq_true', List.all_eq_true] at hwf
  obtain ⟨⟨⟨⟨⟨⟨h1, h2⟩, h3⟩, h4⟩, h5⟩, h6⟩, -⟩ := hwf
  have htokne : tok ≠ [] := by
    intro h
    rw [h] at h1
    simp at h1
  have hgapne : gap ≠ [] := by
    intro h
    rw [h] at h3
    simp at h3
  obtain ⟨g, gs, rfl⟩ := List.exists_cons_of_ne_nil hgapne
  cases val with
  | nil => simp at h5
  | cons v vs =>
    simp only [Bool.not_eq_true'] at h5
    have hg : isSpaceChar g = true := by
      have := h4 g (List.mem_cons_self g gs)
      simp only [Bool.and_eq_true] at this
      exact this.1
    obtain ⟨a1, a2⟩ := takeWhile_dropWhile_run (fun c => !isSpaceChar c) tok
      (g :: gs ++ (v :: vs ++ rest)) (fun a ha => by simp [h2 a ha])
      (fun c hc => by
        simp only [List.cons_append, List.head?_cons, Option.some.injEq] at hc
        rw [← hc]
        simp [hg])
    obtain ⟨b1, b2⟩ := takeWhile_dropWhile_run isSpaceChar (g :: gs) (v :: vs ++ rest)
      (fun a ha => by
        have := h4 a ha
        simp only [Bool.and_eq_true] at this
        exact this.1)
      (fun c hc => by
        simp only [List.cons_append, List.head?_cons, Option.some.injEq] at hc
        rw [← hc]
        exact h5)
    obtain ⟨c1, c2⟩ := takeWhile_dropWhile_run (fun c => !isLineTerminator c) (v :: vs) rest
      (fun a ha => by simp [h6 a ha])
      (fun c hc => by simp [hrest c hc])
    unfold matchHere
    simp only
    rw [a1, a2, b1, b2, c1, c2]
    simp [htokne]

/-- The search walks over a run of blanks without finding a match; behind the
run, the preceding character is the last one of the run. -/
theorem regexTokens_skip (eol : List Char) (h : ∀ c ∈ eol, isSpaceChar c = true) :
    ∀ (fuel : Nat) (prev : Option Char) (rest : List Char),
      regexTokens (eol.length + fuel) prev (eol ++ rest)
        = regexTokens fuel (eol.foldl (fun _ c => some c) prev) rest := by
  induction eol with
  | nil =>
    intro fuel prev rest
    simp
  | cons c cs ih =>
    intro fuel prev rest
    have hc := h c (List.mem_cons_self c cs)
    have hm : matchHere (c :: (cs ++ rest)) = none := by
      unfold matchHere
      simp [List.takeWhile, hc]
    have hlen : (c :: cs).length + fuel = (cs.length + fuel) + 1 := by
      simp only [List.length_cons]
      omega
    rw [hlen, List.cons_append, List.foldl_cons]
    conv_lhs => unfold regexTokens
    rw [hm]
    simp only [ite_self]
    exact ih (fun x hx => h x (List.mem_cons_of_mem c hx)) fuel (some c) rest

/-- Behind a line end whose last character is a newline, `^` holds. -/
theorem lineStart_after_eol (eol : List Char) (prev : Option Char)
    (h : eol.getLast? = some '\n') :
    atLineStart (eol.foldl (fun _ c => some c) prev) = true := by
  obtain ⟨ys, rfl⟩ := List.getLast?_eq_some_iff.mp h
  rw [List.foldl_append]
  rfl

/-- On a text made of well-formed lines the token iterator yields the tokens and
values of the lines, in order. -/
theorem regexTokens_hdrTextOf (lines : List HdrLine) :
    wellFormedHeader lines = true →
    ∀ (fuel : Nat) (prev : Option Char), (hdrTextOf lines).length + 1 ≤ fuel →
      atLineStart prev = true →
      regexTokens fuel prev (hdrTextOf lines) = lines.map (fun l => (l.token, l.value)) := by
  induction lines with
  | nil =>
    intro _ fuel prev _ _
    cases fuel <;> simp [hdrTextOf, regexTokens]
  | cons l ls ih =>
    intro hwf fuel prev hfuel hprev
    have hl : wellFormedLine l = true := by
      cases ls with
      | nil => exact hwf
      | cons l2 t =>
        simp only [wellFormedHeader, Bool.and_eq_true] at hwf
        exact hwf.1.1
    have hparts := hl
    simp only [wellFormedLine, Bool.and_eq_true, Bool.not_eq_true', List.all_eq_true] at hparts
    obtain ⟨⟨⟨⟨⟨⟨h1, -⟩, h3⟩, -⟩, h5⟩, -⟩, h7⟩ := hparts
    have htokne : l.token ≠ [] := by
      intro h
      rw [h] at h1
      simp at h1
    have hgaplen : 1 ≤ l.gap.length := by
      cases hg : l.gap with
      | nil => rw [hg] at h3; simp at h3
      | cons g gs => simp
    have hvallen : 1 ≤ l.value.length := by
      cases hv : l.value with
      | nil => rw [hv] at h5; simp at h5
      | cons g gs => simp
    have heolsp : ∀ c ∈ l.eol, isSpaceChar c = true := by
      intro c hc
      have := h7 c hc
      simp only [isLineTerminator, Bool.or_eq_true, decide_eq_true_eq] at this
      rcases this with h | h <;> rw [h] <;> decide
    have hrest : ∀ c, (l.eol ++ hdrTextOf ls).head? = some c → isLineTerminator c = true := by
      intro c hc
      cases he : l.eol with
      | nil =>
        cases ls with
        | nil =>
          rw [he] at hc
          simp [hdrTextOf] at hc
        | cons l2 t =>
          simp only [wellFormedHeader, Bool.and_eq_true, decide_eq_true_eq] at hwf
          rw [he] at hwf
          simp at hwf
      | cons e es =>
        rw [he] at hc
        simp only [List.cons_append, List.head?_cons, Option.some.injEq] at hc
        exact h7 c (by rw [he, ← hc]; exact List.mem_cons_self e es)
    have hm := matchHere_line l (l.eol ++ hdrTextOf ls) hl hrest
    obtain ⟨c, cs, hc⟩ := List.exists_cons_of_ne_nil htokne
    have htext : hdrTextOf (l :: ls)
        = c :: (cs ++ (l.gap ++ (l.value ++ (l.eol ++ hdrTextOf ls)))) := by
      simp [hdrTextOf, hc]
    have hm2 : matchHere (c :: (cs ++ (l.gap ++ (l.value ++ (l.eol ++ hdrTextOf ls)))))
        = some (l.token, l.gap, l.value, l.eol ++ hdrTextOf ls) := by
      rw [← hm, hc]
      rfl
    have hlen : (hdrTextOf (l :: ls)).length
        = l.token.length + l.gap.length + l.value.length + l.eol.length
          + (hdrTextOf ls).length := by
      simp only [hdrTextOf, List.length_append]
      omega
    obtain ⟨f1, rfl⟩ : ∃ f1, fuel = (l.eol.length + f1) + 1 :=
      ⟨fuel - 1 - l.eol.length, by omega⟩
    rw [htext]
    unfold regexTokens
    rw [if_pos hprev, hm2]
    simp only [List.map_cons]
    rw [regexTokens_skip l.eol heolsp]
    congr 1
    cases ls with
    | nil =>
      cases f1 <;> simp [hdrTextOf, regexTokens]
    | cons l2 t =>
      simp only [wellFormedHeader, Bool.and_eq_true, decide_eq_true_eq] at hwf
      exact ih hwf.2 f1 _ (by omega) (lineStart_after_eol l.eol _ hwf.1.2)

/-- The width collected by the loop of lines 69-77 when every `ncols` line carries
the value `vC`: the converted `vC` if there is such a line, the old width if not. -/
theorem foldl_demStep_fst (XlAtoI32 : List Char → Int) (vC : List Char)
    (lines : List (List Char × List Char))
    (hC : ∀ l ∈ lines, XlCompareStringI l.1 "ncols".toList = 0 → l.2 = vC) (dims : UInt2) :
    (lines.foldl (demStep XlAtoI32) dims).1
      = if ∃ l ∈ lines, XlCompareStringI l.1 "ncols".toList = 0
        then intToU32 (XlAtoI32 (cStr vC)) else dims.1 := by
  induction lines generalizing dims with
  | nil => simp
  | cons a t ih =>
    rw [List.foldl_cons, ih (fun x hx => hC x (List.mem_cons_of_mem a hx))]
    have hstep : (demStep XlAtoI32 dims a).1
        = if XlCompareStringI a.1 "ncols".toList = 0 then intToU32 (XlAtoI32 (cStr vC))
          else dims.1 := by
      unfold demStep
      by_cases h1 : XlCompareStringI a.1 "ncols".toList = 0
      · have := hC a (List.mem_cons_self a t) h1
        by_cases h2 : XlCompareStringI a.1 "nrows".toList = 0 <;>
          simp only [h1, h2, if_true, if_false, this]
      · by_cases h2 : XlCompareStringI a.1 "nrows".toList = 0 <;>
          simp only [h1, h2, if_true, if_false]
    by_cases ht : ∃ l ∈ t, XlCompareStringI l.1 "ncols".toList = 0
    · have hall : ∃ l ∈ a :: t, XlCompareStringI l.1 "ncols".toList = 0 := by
        obtain ⟨x, hx, hx2⟩ := ht
        exact ⟨x, List.mem_cons_of_mem a hx, hx2⟩
      rw [if_pos ht, if_pos hall]
    · rw [if_neg ht, hstep]
      by_cases ha : XlCompareStringI a.1 "ncols".toList = 0
      · rw [if_pos ha, if_pos ⟨a, List.mem_cons_self a t, ha⟩]
      · have hnone : ¬ ∃ l ∈ a :: t, XlCompareStringI l.1 "ncols".toList = 0 := by
          rintro ⟨x, hx, hx2⟩
          rcases List.mem_cons.mp hx with h | h
          · exact ha (h ▸ hx2)
          · exact ht ⟨x, h, hx2⟩
        rw [if_neg ha, if_neg hnone]

/-- The height collected by the loop of lines 69-77 when every `nrows` line
carries the value `vR`. -/
theorem foldl_demStep_snd (XlAtoI32 : List Char → Int) (vR : List Char)
    (lines : List (List Char × List Char))
    (hR : ∀ l ∈ lines, XlCompareStringI l.1 "nrows".toList = 0 → l.2 = vR) (dims : UInt2) :
    (lines.foldl (demStep XlAtoI32) dims).2
      = if ∃ l ∈ lines, XlCompareStringI l.1 "nrows".toList = 0
        then intToU32 (XlAtoI32 (cStr vR)) else dims.2 := by
  induction lines generalizing dims with
  | nil => simp
  | cons a t ih =>
    rw [List.foldl_cons, ih (fun x hx => hR x (List.mem_cons_of_mem a hx))]
    have hstep : (demStep XlAtoI32 dims a).2
        = if XlCompareStringI a.1 "nrows".toList = 0 then intToU32 (XlAtoI32 (cStr vR))
          else dims.2 := by
      unfold demStep
      by_cases h2 : XlCompareStringI a.1 "nrows".toList = 0
      · have := hR a (List.mem_cons_self a t) h2
        by_cases h1 : XlCompareStringI a.1 "ncols".toList = 0 <;>
          simp only [h1, h2, if_true, if_false, this]
      · by_cases h1 : XlCompareStringI a.1 "ncols".toList = 0 <;>
          simp only [h1, h2, if_true, if_false]
    by_cases ht : ∃ l ∈ t, XlCompareStringI l.1 "nrows".toList = 0
    · have hall : ∃ l ∈ a :: t, XlCompareStringI l.1 "nrows".toList = 0 := by
        obtain ⟨x, hx, hx2⟩ := ht
        exact ⟨x, List.mem_cons_of_mem a hx, hx2⟩
      rw [if_pos ht, if_pos hall]
    · rw [if_neg ht, hstep]
      by_cases ha : XlCompareStringI a.1 "nrows".toList = 0
      · rw [if_pos ha, if_pos ⟨a, List.mem_cons_self a t, ha⟩]
      · have hnone : ¬ ∃ l ∈ a :: t, XlCompareStringI l.1 "nrows".toList = 0 := by
          rintro ⟨x, hx, hx2⟩
          rcases List.mem_cons.mp hx with h | h
          · exact ha (h ▸ hx2)
          · exact ht ⟨x, h, hx2⟩
        rw [if_neg ha, if_neg hnone]

/-- C9: for a header text made of lines `<token> <value>` (the token and the
value separated by any run of spaces or tabs, each line closed by `\n` or
`\r\n`, the last one with or without a line end), in any order and with any
further lines under other token names, in which a line whose token is `ncols`
(in any letter case) occurs and every such line carries a value that `XlAtoI32`
reads as `C`, and likewise for `nrows` and `R`, `DEMConfig` yields
`_dims = (C, R)`. -/
theorem DEMConfig_hdr_dims (XlAtoI32 : List Char → Int) (input : InputFile)
    (lines : List HdrLine) (vC vR : List Char) (C R : Nat)
    (hext : isHdrExt input.ext = true) (htext : input.hdrText = hdrTextOf lines)
    (hwf : wellFormedHeader lines = true)
    (hC : ∃ l ∈ lines, XlCompareStringI l.token "ncols".toList = 0)
    (hCv : ∀ l ∈ lines, XlCompareStringI l.token "ncols".toList = 0 → l.value = vC)
    (hR : ∃ l ∈ lines, XlCompareStringI l.token "nrows".toList = 0)
    (hRv : ∀ l ∈ lines, XlCompareStringI l.token "nrows".toList = 0 → l.value = vR)
    (hCval : XlAtoI32 (cStr vC) = (C : Int)) (hClt : C < 4294967296)
    (hRval : XlAtoI32 (cStr vR) = (R : Int)) (hRlt : R < 4294967296) :
    DEMConfig XlAtoI32 input = (C, R) := by
  have htok : regexTokens ((hdrTextOf lines).length + 1) none (hdrTextOf lines)
      = lines.map (fun l => (l.token, l.value)) :=
    regexTokens_hdrTextOf lines hwf _ none (Nat.le_refl _) rfl
  have hconv : ∀ n : Nat, n < 4294967296 → intToU32 (n : Int) = n := by
    intro n hn
    unfold intToU32
    omega
  have hC2 : ∃ p ∈ lines.map (fun l => (l.token, l.value)),
      XlCompareStringI p.1 "ncols".toList = 0 := by
    obtain ⟨l, hl, h⟩ := hC
    exact ⟨(l.token, l.value), List.mem_map.mpr ⟨l, hl, rfl⟩, h⟩
  have hCv2 : ∀ p ∈ lines.map (fun l => (l.token, l.value)),
      XlCompareStringI p.1 "ncols".toList = 0 → p.2 = vC := by
    intro p hp h
    obtain ⟨l, hl, rfl⟩ := List.mem_map.mp hp
    exact hCv l hl h
  have hR2 : ∃ p ∈ lines.map (fun l => (l.token, l.value)),
      XlCompareStringI p.1 "nrows".toList = 0 := by
    obtain ⟨l, hl, h⟩ := hR
    exact ⟨(l.token, l.value), List.mem_map.mpr ⟨l, hl, rfl⟩, h⟩
  have hRv2 : ∀ p ∈ lines.map (fun l => (l.token, l.value)),
      XlCompareStringI p.1 "nrows".toList = 0 → p.2 = vR := by
    intro p hp h
    obtain ⟨l, hl, rfl⟩ := List.mem_map.mp hp
    exact hRv l hl h
  unfold DEMConfig
  rw [if_pos hext, htext]
  unfold parseHdr
  rw [htok]
  apply Prod.ext
  · rw [foldl_demStep_fst XlAtoI32 vC _ hCv2, if_pos hC2, hCval, hconv C hClt]
  · rw [foldl_demStep_snd XlAtoI32 vR _ hRv2, if_pos hR2, hRval, hconv R hRlt]

/-- C9 on a header with the lines `NROWS` (two tabs) `20`, `cellsize 0.5`
followed by an empty line, and `ncols` (three spaces) `10`, with `\r\n` line
ends and no line end after the last line: the extent is (10, 20). -/
theorem DEMConfig_hdr_dims_witness :
    DEMConfig (fun v => if v = "10".toList then 10 else 20)
      ⟨some "FLT".toList, "NROWS\t\t20\r\ncellsize 0.5\r\n\r\nncols   10".toList, none, true⟩
      = (10, 20) :=
  DEMConfig_hdr_dims (fun v => if v = "10".toList then 10 else 20)
    ⟨some "FLT".toList, "NROWS\t\t20\r\ncellsize 0.5\r\n\r\nncols   10".toList, none, true⟩
    [⟨"NROWS".toList, "\t\t".toList, "20".toList, "\r\n".toList⟩,
      ⟨"cellsize".toList, " ".toList, "0.5".toList, "\r\n\r\n".toList⟩,
      ⟨"ncols".toList, "   ".toList, "10".toList, []⟩]
    "10".toList "20".toList 10 20 (by decide) (by decide) (by decide) (by decide) (by decide)
    (by decide) (by decide) (by decide) (by decide) (by decide) (by decide)

/-! ## C10: cancellation in the header path -/

/-- The batched loop when the sink answers "not cancelled" at the next `m` polls
and "cancelled" at the one after: it throws after having copied `16 * (m + 1)`
rows, from its entry row on. -/
theorem batchLoop_cancel (inW outW copyRows : Nat) (cancelled : Nat → Bool)
    (hrows : copyRows < 4294967296) :
    ∀ (m fuel k y2 : Nat), m < fuel → y2 + 16 * (m + 1) ≤ copyRows →
      (∀ i, i < m → cancelled (k + i) = false) → cancelled (k + m) = true →
      ∃ evs, batchLoop inW outW copyRows (some cancelled) fuel k y2
          = some (evs, .error .userCancelled) ∧
        evs.filter Event.isWrite = (List.range' y2 (16 * (m + 1))).map (copyRow inW outW) := by
  intro m
  induction m with
  | zero =>
    intro fuel k y2 hfuel hle _ hk
    obtain ⟨f, rfl⟩ : ∃ f, fuel = f + 1 := ⟨fuel - 1, by omega⟩
    have hadd : addU32 y2 16 = y2 + 16 := by
      unfold addU32
      exact Nat.mod_eq_of_lt (by omega)
    refine ⟨(List.range' y2 16).map (copyRow inW outW), ?_, ?_⟩
    · unfold batchLoop
      rw [hadd, if_pos (by omega), batch_rows_eq inW outW y2 (by omega)]
      simp only
      rw [Nat.add_zero] at hk
      rw [if_pos hk]
    · rw [filter_isWrite_map_copyRow]
  | succ m ih =>
    intro fuel k y2 hfuel hle hbefore hk
    obtain ⟨f, rfl⟩ : ∃ f, fuel = f + 1 := ⟨fuel - 1, by omega⟩
    have hadd : addU32 y2 16 = y2 + 16 := by
      unfold addU32
      exact Nat.mod_eq_of_lt (by omega)
    have h0 : cancelled k = false := by
      have := hbefore 0 (by omega)
      rw [Nat.add_zero] at this
      exact this
    obtain ⟨evs, hevs, hfil⟩ := ih f (k + 1) (y2 + 16) (by omega) (by omega)
      (fun i hi => by
        have := hbefore (i + 1) (by omega)
        rw [show k + 1 + i = k + (i + 1) by omega]
        exact this)
      (by rw [show k + 1 + m = k + (m + 1) by omega]; exact hk)
    refine ⟨(List.range' y2 16).map (copyRow inW outW) ++ Event.advance :: evs, ?_, ?_⟩
    · unfold batchLoop
      rw [hadd, if_pos (by omega), batch_rows_eq inW outW y2 (by omega)]
      simp only
      rw [if_neg (by simp [h0]), hevs]
      rfl
    · rw [List.filter_append, filter_isWrite_map_copyRow,
        List.filter_cons_of_neg (by simp [Event.isWrite]), hfil, ← List.map_append]
      have hlen : 16 * (m + 1 + 1) = 16 * (m + 1) + 16 := by omega
      rw [hlen, List.range'_append_1]

/-- An event that stores nothing in the output array reads and writes no sample. -/
theorem ranges_of_not_write (stripLen : Nat → Nat) (inLen outLen : Nat) (e : Event)
    (h : e.isWrite = false) :
    e.validRange = true ∧ e.readsWithin inLen = true ∧ e.writesWithin stripLen outLen = true := by
  cases e <;> simp_all [Event.isWrite, Event.validRange, Event.readsWithin, Event.writesWithin]

/-- C10, as the claim states it, fails: the copies of the first units need not be
defined.  (1) A header declaring `ncols 65537`, `nrows 65536` with nodeDim 1 and
depth 1 keeps the extent (65537, 65536); the 32-bit product of the two is 65536,
so the file is created for 65536 samples, there are 4096 units, and with a sink
that cancels at its first check the copy of row 1, in unit 0, stores the output
elements 65537 .. 131073, beyond the file.  (2) A header declaring `ncols -1`,
`nrows 16` is probed as (4294967295, 16); with nodeDim 7 and depth 1 the padded
width wraps to 3, there is one unit, and the copy of row 1, in unit 0, is called
with the source range from element 4294967295 to element 2, whose end lies before
its start.  In both runs a copy without defined behaviour precedes the first
check of the sink. -/
theorem cancel_copy_undefined_counterexample :
    (ConvertDEMData 1 (fun v => if v = "65537".toList then 65537 else 65536)
        18446744073709551616
        ⟨some "hdr".toList, "ncols 65537\nnrows 65536\n".toList, none, true⟩ true 1 1
        (some (fun _ => true))
      = some ⟨hdrPrologue (some (fun _ => true)) 18446744073709551616 (65537, 65536) 65536
          ++ (List.range' 0 16).map (copyRow 65537 65537), .error .userCancelled⟩ ∧
      0 < min 65536 65536 / 16 ∧
      payloadLength 18446744073709551616 (65537, 65536) = 65536 ∧
      Event.copy 65537 131074 65537
        ∈ hdrPrologue (some (fun _ => true)) 18446744073709551616 (65537, 65536) 65536
          ++ (List.range' 0 16).map (copyRow 65537 65537) ∧
      (Event.copy 65537 131074 65537).writesWithin (fun _ => 0) 65536 = false) ∧
    (ConvertDEMData 1 (fun v => if v = "16".toList then 16 else -1) 18446744073709551616
        ⟨some "hdr".toList, "ncols -1\nnrows 16\n".toList, none, true⟩ true 7 1
        (some (fun _ => true))
      = some ⟨hdrPrologue (some (fun _ => true)) 18446744073709551616 (3, 21) 16
          ++ (List.range' 0 16).map (copyRow 4294967295 3), .error .userCancelled⟩ ∧
      0 < min 21 16 / 16 ∧
      Event.copy 4294967295 2 3
        ∈ hdrPrologue (some (fun _ => true)) 18446744073709551616 (3, 21) 16
          ++ (List.range' 0 16).map (copyRow 4294967295 3) ∧
      (Event.copy 4294967295 2 3).validRange = false) := by
  refine ⟨⟨?_, by decide, by decide, ?_, by decide⟩, ⟨?_, by decide, ?_, by decide⟩⟩
  · rw [← batch_rows_eq 65537 65537 0 (by decide)]
    rfl
  · apply List.mem_append_right
    exact List.mem_map.mpr ⟨1, by decide, by decide⟩
  · rw [← batch_rows_eq 4294967295 3 0 (by decide)]
    rfl
  · apply List.mem_append_right
    exact List.mem_map.mpr ⟨1, by decide, by decide⟩

/-- C10 (amended): in the header path with a progress object whose first
"cancelled" answer comes at the check after unit `k`, with `k` below
`copyRows / 16`, and in which the copies of the rows of the units `0 .. k` (the
rows `0 .. 16 * (k + 1) - 1`) have a valid source range, read only input elements
of index below the length `inLen` of the input array and write only inside the
file created, the run throws "User cancelled", the writes into the output array
are exactly the copies of the rows `0 .. 16 * (k + 1) - 1`, in order (no later
row, no remainder row and no padding fill is written), and every effect of the
run up to the throw stays within the two arrays. -/
theorem cancel_after_unit (stripLen : Nat → Nat) (inLen fuel : Nat)
    (XlAtoI32 : List Char → Int) (sizeT : Nat)
    (input : InputFile) (N D : Nat) (cancelled : Nat → Bool) (W H k : Nat)
    (hext : isHdrExt input.ext = true) (hdata : input.dataValid = true)
    (hdims : DEMConfig XlAtoI32 input = (W, H)) (hz : mulU32 W H ≠ 0)
    (hk : k < (min (finalDims (W, H) (clampingDim N D)).2 H) / 16)
    (hfirst : cancelled k = true) (hbefore : ∀ j, j < k → cancelled j = false)
    (hfuel : k < fuel)
    (hdefined : ∀ y, y < 16 * (k + 1) →
      (copyRow W (finalDims (W, H) (clampingDim N D)).1 y).validRange = true ∧
      (copyRow W (finalDims (W, H) (clampingDim N D)).1 y).readsWithin inLen = true ∧
      (copyRow W (finalDims (W, H) (clampingDim N D)).1 y).writesWithin stripLen
        (payloadLength sizeT (finalDims (W, H) (clampingDim N D))) = true) :
    ∃ tr, ConvertDEMData fuel XlAtoI32 sizeT input true N D (some cancelled)
        = some ⟨tr, .error .userCancelled⟩ ∧
      tr.filter Event.isWrite
        = (List.range' 0 (16 * (k + 1))).map
            (copyRow W (finalDims (W, H) (clampingDim N D)).1) ∧
      ∀ e ∈ tr, e.validRange = true ∧ e.readsWithin inLen = true ∧
        e.writesWithin stripLen (payloadLength sizeT (finalDims (W, H) (clampingDim N D)))
          = true := by
  have hHlt : H < 4294967296 := by
    have := (DEMConfig_lt XlAtoI32 input).2
    rw [hdims] at this
    exact this
  have hrows : min (finalDims (W, H) (clampingDim N D)).2 H < 4294967296 :=
    Nat.lt_of_le_of_lt (Nat.min_le_right _ _) hHlt
  obtain ⟨evs, hevs, hfil⟩ := batchLoop_cancel W (finalDims (W, H) (clampingDim N D)).1
    (min (finalDims (W, H) (clampingDim N D)).2 H) cancelled hrows k fuel 0 0 hfuel
    (by omega) (fun i hi => by rw [Nat.zero_add]; exact hbefore i hi)
    (by rw [Nat.zero_add]; exact hfirst)
  have hwrites : (hdrPrologue (some cancelled) sizeT (finalDims (W, H) (clampingDim N D))
      (min (finalDims (W, H) (clampingDim N D)).2 H) ++ evs).filter Event.isWrite
      = (List.range' 0 (16 * (k + 1))).map
          (copyRow W (finalDims (W, H) (clampingDim N D)).1) := by
    rw [List.filter_append, hdrPrologue_filter, hfil, List.nil_append]
  refine ⟨hdrPrologue (some cancelled) sizeT (finalDims (W, H) (clampingDim N D))
    (min (finalDims (W, H) (clampingDim N D)).2 H) ++ evs, ?_, hwrites, ?_⟩
  · unfold ConvertDEMData
    simp only [hdims, hext, hdata, if_neg hz]
    rw [hevs]
    rfl
  · intro e he
    by_cases hw : e.isWrite = true
    · have hmem := List.mem_filter.mpr ⟨he, hw⟩
      rw [hwrites] at hmem
      obtain ⟨y, hy, rfl⟩ := List.mem_map.mp hmem
      exact hdefined y (by have := (List.mem_range'_1.mp hy).2; omega)
    · exact ranges_of_not_write stripLen _ _ e (by simpa using hw)

/-- The amended C10 on a 40-row, 3-column header source with nodeDim 4 and depth 1
(120 input samples, a file of 160 samples) and a sink that cancels at its second
check (after unit 1): the run throws "User cancelled" after the copies of the
rows 0 .. 31, all of them inside the two arrays. -/
theorem cancel_after_unit_witness :
    ∃ tr, ConvertDEMData 5 (fun v => if v = "3".toList then 3 else 40) 18446744073709551616
        ⟨some "hdr".toList, "ncols 3\nnrows 40\n".toList, none, true⟩ true 4 1
        (some (fun j => decide (1 ≤ j))) = some ⟨tr, .error .userCancelled⟩ ∧
      tr.filter Event.isWrite
        = (List.range' 0 (16 * (1 + 1))).map
            (copyRow 3 (finalDims (3, 40) (clampingDim 4 1)).1) ∧
      ∀ e ∈ tr, e.validRange = true ∧ e.readsWithin 120 = true ∧
        e.writesWithin (fun _ => 0)
          (payloadLength 18446744073709551616 (finalDims (3, 40) (clampingDim 4 1))) = true :=
  cancel_after_unit (fun _ => 0) 120 5 (fun v => if v = "3".toList then 3 else 40)
    18446744073709551616
    ⟨some "hdr".toList, "ncols 3\nnrows 40\n".toList, none, true⟩ 4 1
    (fun j => decide (1 ≤ j)) 3 40 1 (by decide) rfl (by decide) (by decide) (by decide)
    (by decide) (by decide) (by decide) (by decide)

/-! ## C12: errors of `GetUberSurfaceDimensions` -/

/-- C12: `GetUberSurfaceDimensions` throws its read error exactly when the file
holds fewer than the 16 bytes of a header or the magic field of its first 16
bytes is not `0xa3d3e3c3`; it throws nothing else; otherwise it returns the width
and height fields of the header unchanged, whatever follows the header. -/
theorem getUberSurfaceDimensions_errors (file : List Nat) :
    (GetUberSurfaceDimensions file = .error .readError
      ↔ (file.length < sizeofHeader ∨
          (headerOfBytes (file.take sizeofHeader))._magic ≠ TerrainUberHeader.Magic)) ∧
    (∀ e, GetUberSurfaceDimensions file = .error e → e = .readError) ∧
    (¬ (file.length < sizeofHeader ∨
          (headerOfBytes (file.take sizeofHeader))._magic ≠ TerrainUberHeader.Magic) →
      GetUberSurfaceDimensions file
        = .ok ((headerOfBytes (file.take sizeofHeader))._width,
               (headerOfBytes (file.take sizeofHeader))._height)) := by
  have hval : GetUberSurfaceDimensions file
      = if file.length < sizeofHeader ∨
          (headerOfBytes (file.take sizeofHeader))._magic ≠ TerrainUberHeader.Magic
        then .error .readError
        else .ok ((headerOfBytes (file.take sizeofHeader))._width,
                  (headerOfBytes (file.take sizeofHeader))._height) := by
    unfold GetUberSurfaceDimensions readHeader
    by_cases hlen : sizeofHeader ≤ file.length
    · rw [if_pos hlen]
      by_cases hm : (headerOfBytes (file.take sizeofHeader))._magic ≠ TerrainUberHeader.Magic
      · rw [if_pos (Or.inr hm)]
        dsimp only
        rw [if_pos hm]
      · have hn : ¬ (file.length < sizeofHeader ∨
            (headerOfBytes (file.take sizeofHeader))._magic ≠ TerrainUberHeader.Magic) := by
          rintro (h | h)
          · exact absurd hlen (Nat.not_le_of_lt h)
          · exact hm h
        rw [if_neg hn]
        dsimp only
        rw [if_neg hm]
    · rw [if_neg hlen, if_pos (Or.inl (Nat.lt_of_not_le hlen))]
  rw [hval]
  by_cases hc : file.length < sizeofHeader ∨
      (headerOfBytes (file.take sizeofHeader))._magic ≠ TerrainUberHeader.Magic
  · rw [if_pos hc]
    refine ⟨⟨fun _ => hc, fun _ => rfl⟩, ?_, fun hn => absurd hc hn⟩
    intro e he
    simp only [Except.error.injEq] at he
    exact he.symm
  · rw [if_neg hc]
    refine ⟨⟨fun h => ?_, fun h => absurd h hc⟩, ?_, fun _ => rfl⟩
    · simp at h
    · intro e he
      simp at he

/-! ## C14: the coverage layers of the starter configuration -/

/-- C14, as the claim states it, fails: with nodeDim `2 ^ 30` the product
`layerRes*destNodeDims` of line 289 wraps to 0, so the one requested layer gets
the per-cell resolution (0, 0) and not `(4 * N, 4 * N)`. -/
theorem layer_resolution_wraps_counterexample :
    GenerateStarterCells
        (headerBytes ⟨TerrainUberHeader.Magic, 1073741824, 1073741824, 0⟩)
        (fun _ => []) 1073741824 1 0 (0 : Nat) [(1, 5)]
      = .ok ⟨(1, 1), 1073741824, 1, 0, 0, [⟨[], 1, (0, 0), 1, 5⟩]⟩ ∧
    ((0, 0) : UInt2) ≠ (4 * 1073741824, 4 * 1073741824) := by
  decide

/-- C14 (amended): for every list of requested layers and every nodeDim `N` with
`4 * N < 2 ^ 32`, the configuration `GenerateStarterCells` builds when the
divisibility check passes has exactly one coverage layer per requested layer, in
the order of the input, the `i`-th with the file name of its channel, channel id
`layers[i].first`, per-cell resolution `(4 * N, 4 * N)`, stride 1 and layer
parameter `layers[i].second`. -/
theorem generateStarterCells_layers {F : Type} (heightsFile : List Nat)
    (uberSurfaceFN : Nat → List Char) (N D overlap : Nat) (spacing : F)
    (layers : List (Nat × Nat)) (cfg : TerrainConfig F)
    (hN : 4 * N < 4294967296)
    (hcfg : GenerateStarterCells heightsFile uberSurfaceFN N D overlap spacing layers = .ok cfg) :
    cfg.layers.length = layers.length ∧
    cfg.layers = layers.map
      (fun l => (⟨uberSurfaceFN l.1, l.1, (4 * N, 4 * N), 1, l.2⟩ : CoverageLayer)) ∧
    ∀ i (hi : i < layers.length), cfg.layers[i]? =
      some ⟨uberSurfaceFN (layers.get ⟨i, hi⟩).1, (layers.get ⟨i, hi⟩).1, (4 * N, 4 * N), 1,
        (layers.get ⟨i, hi⟩).2⟩ := by
  have hmul : mulU32 4 N = 4 * N := by
    unfold mulU32
    exact Nat.mod_eq_of_lt hN
  have hlayers : cfg.layers = layers.map
      (fun l => (⟨uberSurfaceFN l.1, l.1, (4 * N, 4 * N), 1, l.2⟩ : CoverageLayer)) := by
    unfold GenerateStarterCells at hcfg
    split at hcfg
    · cases hcfg
    · dsimp only at hcfg
      split at hcfg
      · cases hcfg
      · simp only [Except.ok.injEq] at hcfg
        rw [← hcfg]
        apply List.map_congr_left
        intro l _
        simp only [starterLayer, hmul]
  refine ⟨by rw [hlayers, List.length_map], hlayers, ?_⟩
  intro i hi
  rw [hlayers, List.getElem?_map, List.getElem?_eq_getElem hi]
  rfl

/-- The amended C14 on a 128 x 128 heights file with nodeDim 32, depth 1 and the
two requested layers (1000, 1) and (7, 3). -/
theorem generateStarterCells_layers_witness :
    ([⟨[], 1000, (128, 128), 1, 1⟩, ⟨[], 7, (128, 128), 1, 3⟩] : List CoverageLayer).length
      = [(1000, 1), (7, 3)].length ∧
    ([⟨[], 1000, (128, 128), 1, 1⟩, ⟨[], 7, (128, 128), 1, 3⟩] : List CoverageLayer)
      = [(1000, 1), (7, 3)].map
        (fun l => (⟨(fun _ => []) l.1, l.1, (4 * 32, 4 * 32), 1, l.2⟩ : CoverageLayer)) :=
  have h := generateStarterCells_layers
    (headerBytes ⟨TerrainUberHeader.Magic, 128, 128, 0⟩) (fun _ => []) 32 1 2 (10 : Nat)
    [(1000, 1), (7, 3)]
    ⟨(4, 4), 32, 1, 2, 10, [⟨[], 1000, (128, 128), 1, 1⟩, ⟨[], 7, (128, 128), 1, 3⟩]⟩
    (by decide) (by decide)
  ⟨h.1, h.2.1⟩

/-! ## C15: the clamping dimension and the cell size -/

/-- C15, as the claim states it, fails: for nodeDim 65536 and depth 17 the
product of line 119 (and of line 268) is `65536 * 65536` taken modulo `2 ^ 32`,
that is 0, so it is neither `N * 2 ^ (D - 1)` nor positive, and the remainders
and divisions that follow have a zero divisor. -/
theorem clampingDim_zero_counterexample :
    0 < 65536 ∧ 1 ≤ 17 ∧ clampingDim 65536 17 = 0 ∧ cellDimsInEles 65536 17 = 0 ∧
    clampingDim 65536 17 ≠ 65536 * 2 ^ (17 - 1) := by
  decide

/-- C15 (amended): for nodeDim `N > 0` and depth `D ≥ 1` with
`N * 2 ^ (D - 1) < 2 ^ 32`, the `clampingDim` of `ConvertDEMData` and the
`cellDimsInEles` of `GenerateStarterCells` are the same value `N * 2 ^ (D - 1)`,
and it is positive, so the divisors of the remainders and divisions of lines 121,
122, 240, 269 and 276 are not zero. -/
theorem clampingDim_pos (N D : Nat) (hN : 0 < N) (hD : 1 ≤ D)
    (hfit : N * 2 ^ (D - 1) < 4294967296) :
    clampingDim N D = cellDimsInEles N D ∧ clampingDim N D = N * 2 ^ (D - 1) ∧
    0 < clampingDim N D ∧ 0 < cellDimsInEles N D := by
  have hc := clampingDim_eq hN hD hfit
  have hpos : 0 < N * 2 ^ (D - 1) := Nat.mul_pos hN (Nat.pow_pos (by decide))
  rw [cellDimsInEles_eq_clampingDim, hc]
  exact ⟨rfl, rfl, hpos, hpos⟩

/-- The amended C15 at nodeDim 32 and depth 5: both values are 512. -/
theorem clampingDim_pos_witness :
    clampingDim 32 5 = cellDimsInEles 32 5 ∧ clampingDim 32 5 = 32 * 2 ^ (5 - 1) ∧
    0 < clampingDim 32 5 ∧ 0 < cellDimsInEles 32 5 :=
  clampingDim_pos 32 5 (by decide) (by decide) (by decide)

/-! ## C13: inputs that are probed as (0, 0) -/

/-- A match of the pattern takes its first group from the head of the text and
leaves a tail of the text unread. -/
theorem matchHere_some {s name gap value rest : List Char}
    (h : matchHere s = some (name, gap, value, rest)) : name <+: s ∧ rest <:+ s := by
  unfold matchHere at h
  simp only at h
  split at h
  · cases h
  · simp only [Option.some.injEq, Prod.mk.injEq] at h
    obtain ⟨h1, -, -, h4⟩ := h
    subst h1 h4
    exact ⟨List.takeWhile_prefix _,
      ((List.dropWhile_suffix _).trans (List.dropWhile_suffix _)).trans (List.dropWhile_suffix _)⟩

/-- Every token the iterator yields stands in the text. -/
theorem regexTokens_name_sublist :
    ∀ (fuel : Nat) (prev : Option Char) (s : List Char) (p : List Char × List Char),
      p ∈ regexTokens fuel prev s → p.1 <:+: s := by
  intro fuel
  induction fuel with
  | zero => intro prev s p hp; simp [regexTokens] at hp
  | succ fuel ih =>
    intro prev s p hp
    cases s with
    | nil => simp [regexTokens] at hp
    | cons c cs =>
      have hskip : p ∈ regexTokens fuel (some c) cs → p.1 <:+: c :: cs :=
        fun h => List.infix_cons (ih (some c) cs p h)
      unfold regexTokens at hp
      split at hp
      · split at hp
        · rename_i name gap value rest hm
          obtain ⟨hpre, hsuf⟩ := matchHere_some hm
          rcases List.mem_cons.mp hp with h | h
          · rw [h]
            exact hpre.isInfix
          · exact (ih _ rest p h).trans hsuf.isInfix
        · exact hskip hp
      · exact hskip hp

/-- A text in which no run of characters reads as `ncols` or `nrows` has no such
token. -/
theorem no_token_of_absent_name (text : List Char)
    (h : ∀ s, s <:+: text → XlCompareStringI s "ncols".toList ≠ 0 ∧
      XlCompareStringI s "nrows".toList ≠ 0) :
    ∀ p ∈ regexTokens (text.length + 1) none text,
      XlCompareStringI p.1 "ncols".toList ≠ 0 ∧ XlCompareStringI p.1 "nrows".toList ≠ 0 :=
  fun p hp => h p.1 (regexTokens_name_sublist _ _ _ p hp)

/-- The loop of lines 69-77 leaves the dimensions alone when no pair is named
`ncols` or `nrows`. -/
theorem foldl_demStep_none (XlAtoI32 : List Char → Int) (ps : List (List Char × List Char))
    (h : ∀ p ∈ ps, XlCompareStringI p.1 "ncols".toList ≠ 0 ∧
      XlCompareStringI p.1 "nrows".toList ≠ 0) (dims : UInt2) :
    ps.foldl (demStep XlAtoI32) dims = dims := by
  induction ps generalizing dims with
  | nil => rfl
  | cons a t ih =>
    obtain ⟨h1, h2⟩ := h a (List.mem_cons_self a t)
    have hstep : demStep XlAtoI32 dims a = dims := by
      unfold demStep
      simp only [h1, h2, if_false]
    rw [List.foldl_cons, hstep]
    exact ih (fun p hp => h p (List.mem_cons_of_mem a hp)) dims

/-- C13: when the path has no extension or an extension that is none of `hdr`,
`flt`, `tif`, `tiff` (compared without regard to case), and when it is a header
source whose header text (possibly empty, as for an unreadable file) has no token
`ncols` and no token `nrows`, `DEMConfig` yields `_dims = (0, 0)` and
`ConvertDEMData` throws "Bad or missing input terrain config file" with no effect
but the opening of the first progress step: no directory or file is created and
nothing is written. -/
theorem unprobed_input_is_bad (fuel : Nat) (XlAtoI32 : List Char → Int) (sizeT : Nat)
    (input : InputFile) (outputValid : Bool) (N D : Nat) (progress : Option (Nat → Bool))
    (h : (∀ e, input.ext = some e →
            XlCompareStringI e "hdr".toList ≠ 0 ∧ XlCompareStringI e "flt".toList ≠ 0 ∧
            XlCompareStringI e "tif".toList ≠ 0 ∧ XlCompareStringI e "tiff".toList ≠ 0)
        ∨ (isHdrExt input.ext = true ∧
            ∀ p ∈ regexTokens (input.hdrText.length + 1) none input.hdrText,
              XlCompareStringI p.1 "ncols".toList ≠ 0 ∧
              XlCompareStringI p.1 "nrows".toList ≠ 0)) :
    DEMConfig XlAtoI32 input = (0, 0) ∧
    ConvertDEMData fuel XlAtoI32 sizeT input outputValid N D progress
      = some ⟨whenProgress progress [Event.beginStep 1 false], .error .badInput⟩ ∧
    ∀ e ∈ whenProgress progress [Event.beginStep 1 false], e = Event.beginStep 1 false := by
  have hdims : DEMConfig XlAtoI32 input = (0, 0) := by
    rcases h with h | ⟨hext, htok⟩
    · have h1 : isHdrExt input.ext = false := by
        unfold isHdrExt
        cases hx : input.ext with
        | none => rfl
        | some e =>
          obtain ⟨a, b, -, -⟩ := h e hx
          simp only [Bool.or_eq_false_iff, decide_eq_false_iff_not]
          exact ⟨a, b⟩
      have h2 : isTifExt input.ext = false := by
        unfold isTifExt
        cases hx : input.ext with
        | none => rfl
        | some e =>
          obtain ⟨-, -, a, b⟩ := h e hx
          simp only [Bool.or_eq_false_iff, decide_eq_false_iff_not]
          exact ⟨a, b⟩
      unfold DEMConfig
      simp [h1, h2]
    · unfold DEMConfig
      rw [if_pos hext]
      unfold parseHdr
      exact foldl_demStep_none XlAtoI32 _ htok (0, 0)
  refine ⟨hdims, ?_, ?_⟩
  · unfold ConvertDEMData
    simp only [hdims]
    rw [if_pos (by decide)]
  · intro e he
    cases progress with
    | none => simp [whenProgress] at he
    | some c => simpa [whenProgress] using he

/-- C13 on a path with the extension `png`, on a path without extension, and on a
header source whose header has the lines `cellsize 0.5` and `nodata -9999` only. -/
theorem unprobed_input_is_bad_witness :
    (DEMConfig (fun _ => 7) ⟨some "png".toList, "ncols 3\nnrows 3\n".toList, none, true⟩ = (0, 0) ∧
      ConvertDEMData 1 (fun _ => 7) 18446744073709551616
          ⟨some "png".toList, "ncols 3\nnrows 3\n".toList, none, true⟩ true 4 1 none
        = some ⟨whenProgress none [Event.beginStep 1 false], .error .badInput⟩) ∧
    DEMConfig (fun _ => 7) ⟨none, [], none, true⟩ = (0, 0) ∧
    (DEMConfig (fun _ => 7)
        ⟨some "HDR".toList, "cellsize 0.5\nnodata -9999\n".toList, none, true⟩ = (0, 0) ∧
      ConvertDEMData 1 (fun _ => 7) 18446744073709551616
          ⟨some "HDR".toList, "cellsize 0.5\nnodata -9999\n".toList, none, true⟩ true 4 1
          (some (fun _ => false))
        = some ⟨whenProgress (some (fun _ => false)) [Event.beginStep 1 false],
            .error .badInput⟩) :=
  have h1 := unprobed_input_is_bad 1 (fun _ => 7) 18446744073709551616
    ⟨some "png".toList, "ncols 3\nnrows 3\n".toList, none, true⟩ true 4 1 none
    (Or.inl (by decide))
  have h2 := unprobed_input_is_bad 1 (fun _ => 7) 18446744073709551616
    ⟨none, [], none, true⟩ true 4 1 none (Or.inl (by decide))
  have h3 := unprobed_input_is_bad 1 (fun _ => 7) 18446744073709551616
    ⟨some "HDR".toList, "cellsize 0.5\nnodata -9999\n".toList, none, true⟩ true 4 1
    (some (fun _ => false)) (Or.inr (by decide))
  ⟨⟨h1.1, h1.2.1⟩, h2.1, ⟨h3.1, h3.2.1⟩⟩

/-! ## C16: the batched loop against the plain loop -/

/-- The batched loop with a sink that does not cancel at its next `n` polls, when
the row counter cannot wrap and exactly `n` more batches fit: it is left through
its condition after `n` batches, having copied the `16 * n` rows from its entry
row on, in order, and having advanced the sink `n` times. -/
theorem batchLoop_completes_sink (inW outW copyRows : Nat) (cancelled : Nat → Bool)
    (hnowrap : copyRows < 4294967280) :
    ∀ (n fuel k y2 : Nat), n < fuel → y2 + 16 * n ≤ copyRows → copyRows < y2 + 16 * (n + 1) →
      (∀ i, i < n → cancelled (k + i) = false) →
      ∃ evs, batchLoop inW outW copyRows (some cancelled) fuel k y2
          = some (evs, .ok (y2 + 16 * n)) ∧
        evs.filter Event.isWrite = (List.range' y2 (16 * n)).map (copyRow inW outW) ∧
        evs.count Event.advance = n := by
  intro n
  induction n with
  | zero =>
    intro fuel k y2 hfuel hle hgt _
    obtain ⟨f, rfl⟩ : ∃ f, fuel = f + 1 := ⟨fuel - 1, by omega⟩
    have hadd : addU32 y2 16 = y2 + 16 := by
      unfold addU32
      exact Nat.mod_eq_of_lt (by omega)
    refine ⟨[], ?_, by simp, by simp⟩
    unfold batchLoop
    rw [hadd, if_neg (by omega)]
    rfl
  | succ n ih =>
    intro fuel k y2 hfuel hle hgt hnc
    obtain ⟨f, rfl⟩ : ∃ f, fuel = f + 1 := ⟨fuel - 1, by omega⟩
    have hadd : addU32 y2 16 = y2 + 16 := by
      unfold addU32
      exact Nat.mod_eq_of_lt (by omega)
    obtain ⟨evs, hevs, hfil, hcnt⟩ := ih f (k + 1) (y2 + 16) (by omega) (by omega) (by omega)
      (fun i hi => by
        have := hnc (i + 1) (by omega)
        rw [show k + 1 + i = k + (i + 1) by omega]
        exact this)
    have hval : y2 + 16 + 16 * n = y2 + 16 * (n + 1) := by omega
    rw [hval] at hevs
    have h0 : cancelled k = false := by
      have := hnc 0 (by omega)
      rw [Nat.add_zero] at this
      exact this
    refine ⟨(List.range' y2 16).map (copyRow inW outW) ++ Event.advance :: evs, ?_, ?_, ?_⟩
    · unfold batchLoop
      rw [hadd, if_pos (by omega), batch_rows_eq inW outW y2 (by omega)]
      simp only
      rw [if_neg (by simp [h0]), hevs]
      rfl
    · rw [List.filter_append, filter_isWrite_map_copyRow,
        List.filter_cons_of_neg (by simp [Event.isWrite]), hfil, ← List.map_append]
      have hlen : 16 * (n + 1) = 16 * n + 16 := by omega
      rw [hlen, List.range'_append_1]
    · have hrows : ((List.range' y2 16).map (copyRow inW outW)).count Event.advance = 0 := by
        apply List.count_eq_zero.mpr
        intro hmem
        obtain ⟨r, -, hr⟩ := List.mem_map.mp hmem
        cases hr
      rw [List.count_append, hrows, List.count_cons_self, hcnt]
      omega

/-- With `2 ^ 32 - 16` rows or more and a sink that never cancels, no amount of
fuel lets the batched loop return. -/
theorem batchLoop_diverges (inW outW copyRows : Nat) (hbig : 4294967280 ≤ copyRows) :
    ∀ (fuel k y2 : Nat), y2 % 16 = 0 → y2 < 4294967296 →
      batchLoop inW outW copyRows (some (fun _ => false)) fuel k y2 = none := by
  intro fuel k y2 hmod hlt
  cases hres : batchLoop inW outW copyRows (some (fun _ => false)) fuel k y2 with
  | none => rfl
  | some r =>
    obtain ⟨evs, res⟩ := r
    cases res with
    | ok y =>
      exact absurd hres (batchLoop_never_exits inW outW copyRows _ hbig fuel k y2 hmod hlt evs y)
    | error e =>
      exfalso
      clear hmod hlt
      induction fuel generalizing k y2 evs with
      | zero => simp [batchLoop] at hres
      | succ fuel ih =>
        unfold batchLoop at hres
        split at hres
        · simp only [Bool.false_eq_true, if_false] at hres
          cases hrec : batchLoop inW outW copyRows (some (fun _ => false)) fuel (k + 1)
            (addU32 y2 16) with
          | none => rw [hrec] at hres; simp at hres
          | some r =>
            rw [hrec] at hres
            simp only [Option.map_some', Option.some.injEq, Prod.mk.injEq] at hres
            obtain ⟨r1, r2⟩ := r
            exact ih (k + 1) (addU32 y2 16) r1 (by rw [hrec]; simp [← hres.2])
        · simp at hres

/-- C16, as the claim states it, fails: a header declaring `ncols 1`, `nrows -16`
is probed as the extent (1, 4294967280); with nodeDim 1 and depth 1 there are
4294967280 rows to copy, the sum `y2+progressStep` wraps to 0 at
`y2 = 4294967280`, the condition of the batched loop holds again, and with a sink
that never cancels the run does not return, whatever the fuel. -/
theorem batched_loop_diverges_counterexample :
    ¬ ∃ fuel run, ConvertDEMData fuel (fun v => if v = "1".toList then 1 else -16)
        18446744073709551616 ⟨some "hdr".toList, "ncols 1\nnrows -16\n".toList, none, true⟩
        true 1 1 (some (fun _ => false)) = some run := by
  rintro ⟨fuel, run, hrun⟩
  have hd : DEMConfig (fun v => if v = "1".toList then 1 else -16)
      ⟨some "hdr".toList, "ncols 1\nnrows -16\n".toList, none, true⟩ = (1, 4294967280) := by
    decide
  have hfd : finalDims (1, 4294967280) (clampingDim 1 1) = (1, 4294967280) := by decide
  have hz : mulU32 1 4294967280 ≠ 0 := by decide
  have hext : isHdrExt (some "hdr".toList) = true := by decide
  unfold ConvertDEMData at hrun
  simp only [hd, hfd, hext, if_neg hz] at hrun
  rw [batchLoop_diverges 1 1 (min 4294967280 4294967280) (by decide) fuel 0 0 (by decide)
    (by decide)] at hrun
  simp at hrun

/-- C16 (amended): for a row count `copyRows < 2 ^ 32 - 16` and a sink that does
not cancel at any of its `copyRows / 16` polls, the batched loop returns (with
any fuel above the number of batches) at `y2 = 16 * (copyRows / 16)`; its writes
followed by those of the remainder loop are the writes of the plain loop, one
copy per row of `[0, copyRows)` in increasing order; the remainder loop copies
`copyRows mod 16 < 16` rows; the sink is advanced `copyRows / 16` times, the unit
count declared to `BeginStep`. -/
theorem batched_loop_refines_plain (inW outW copyRows fuel : Nat) (cancelled : Nat → Bool)
    (sizeT : Nat) (fd : UInt2)
    (hrows : copyRows < 4294967280)
    (hnc : ∀ i, i < copyRows / 16 → cancelled i = false) (hfuel : copyRows / 16 < fuel) :
    ∃ evs, batchLoop inW outW copyRows (some cancelled) fuel 0 0
        = some (evs, .ok (16 * (copyRows / 16))) ∧
      evs.filter Event.isWrite ++ remainderLoop inW outW copyRows (16 * (copyRows / 16))
        = plainRowLoop inW outW copyRows ∧
      (remainderLoop inW outW copyRows (16 * (copyRows / 16))).length = copyRows % 16 ∧
      copyRows % 16 < 16 ∧
      evs.count Event.advance = copyRows / 16 ∧
      Event.beginStep (copyRows / 16) true ∈ hdrPrologue (some cancelled) sizeT fd copyRows := by
  obtain ⟨evs, hevs, hfil, hcnt⟩ := batchLoop_completes_sink inW outW copyRows cancelled hrows
    (copyRows / 16) fuel 0 0 hfuel (by omega) (by omega)
    (fun i hi => by rw [Nat.zero_add]; exact hnc i hi)
  rw [Nat.zero_add] at hevs
  refine ⟨evs, hevs, ?_, ?_, Nat.mod_lt _ (by decide), hcnt, ?_⟩
  · rw [hfil]
    unfold remainderLoop plainRowLoop
    rw [← List.map_append, List.range_eq_range']
    congr 1
    have h1 : copyRows - 16 * (copyRows / 16) = copyRows % 16 := by omega
    have h2 : 16 * (copyRows / 16) = 0 + 16 * (copyRows / 16) := by omega
    have h3 : copyRows = copyRows % 16 + 16 * (copyRows / 16) := by omega
    rw [h1]
    conv_lhs => rw [h2]
    conv_rhs => rw [h3]
    rw [Nat.zero_add]
    have := List.range'_append_1 0 (16 * (copyRows / 16)) (copyRows % 16)
    rw [Nat.zero_add] at this
    exact this
  · unfold remainderLoop
    rw [List.length_map, List.length_range']
    omega
  · simp [hdrPrologue, whenProgress]

/-- The amended C16 for 40 rows: two batches, a remainder of 8 rows, two
advances. -/
theorem batched_loop_refines_plain_witness :
    ∃ evs, batchLoop 3 4 40 (some (fun _ => false)) 5 0 0
        = some (evs, .ok (16 * (40 / 16))) ∧
      evs.filter Event.isWrite ++ remainderLoop 3 4 40 (16 * (40 / 16))
        = plainRowLoop 3 4 40 ∧
      (remainderLoop 3 4 40 (16 * (40 / 16))).length = 40 % 16 ∧
      40 % 16 < 16 ∧
      evs.count Event.advance = 40 / 16 ∧
      Event.beginStep (40 / 16) true
        ∈ hdrPrologue (some (fun _ => false)) 18446744073709551616 (4, 40) 40 :=
  batched_loop_refines_plain 3 4 40 5 (fun _ => false) 18446744073709551616 (4, 40)
    (by decide) (by intro i _; rfl) (by decide)

/-! ## Lemmas on the ranges of the accesses -/

/-- The writes of a run of the header path that returns normally: the copies of
the rows `0 .. copyRows-1` in increasing order, then the padding fill. -/
theorem convert_hdr_ok_writes_min (fuel : Nat) (XlAtoI32 : List Char → Int) (sizeT : Nat)
    (input : InputFile) (outputValid : Bool) (N D : Nat) (progress : Option (Nat → Bool))
    (W H : Nat) (run : Run) (ret : UInt2)
    (hext : isHdrExt input.ext = true) (hdims : DEMConfig XlAtoI32 input = (W, H))
    (hrun : ConvertDEMData fuel XlAtoI32 sizeT input outputValid N D progress = some run)
    (hok : run.result = .ok ret) :
    run.trace.filter Event.isWrite
      = (List.range' 0 (min (finalDims (W, H) (clampingDim N D)).2 H)).map
          (copyRow W (finalDims (W, H) (clampingDim N D)).1)
        ++ paddingFill (W, H) (finalDims (W, H) (clampingDim N D)) := by
  obtain ⟨-, evs, y2, hb, htr, -⟩ :=
    convert_hdr_ok_shape fuel XlAtoI32 sizeT input outputValid N D progress W H run ret
      hext hdims hrun hok
  have hHlt : H < 4294967296 := by
    have := (DEMConfig_lt XlAtoI32 input).2
    rw [hdims] at this
    exact this
  have hlt : min (finalDims (W, H) (clampingDim N D)).2 H < 4294967296 :=
    Nat.lt_of_le_of_lt (Nat.min_le_right _ _) hHlt
  obtain ⟨-, b2, -, -, b5⟩ := batchLoop_ok W _ _ progress hlt fuel 0 0 evs y2 (by decide)
    (Nat.zero_le _) hb
  rw [htr, List.filter_append, List.filter_append, List.filter_append, hdrPrologue_filter,
    b5, paddingFill_filter, List.nil_append]
  unfold remainderLoop
  rw [filter_isWrite_map_copyRow, ← List.map_append]
  congr 2
  generalize min (finalDims (W, H) (clampingDim N D)).2 H = rows at b2 ⊢
  have hlen : rows = (rows - y2) + (y2 - 0) := by omega
  have h0 : y2 = 0 + (y2 - 0) := by omega
  conv_rhs => rw [hlen]
  conv_lhs => rw [h0]
  rw [Nat.zero_add, Nat.sub_zero]
  have := List.range'_append_1 0 y2 (rows - y2)
  rw [Nat.zero_add] at this
  exact this

theorem paddingFill_eq_rows (W H V H1 : Nat) :
    paddingFill (W, H) (V, H1)
      = (if V > W then (List.range H).map (fillRowTail W V) else [])
        ++ (List.range' H (H1 - H)).map (fillRow V) := rfl

/-- The file created never holds more samples than the 32-bit product of the
padded dimensions. -/
theorem payloadLength_le (sizeT : Nat) (fd : UInt2) :
    payloadLength sizeT fd ≤ mulU32 fd.1 fd.2 := by
  unfold payloadLength resultSize sizeofHeader sizeofFloat
  have h1 : (mulU32 fd.1 fd.2 * 4) % sizeT ≤ mulU32 fd.1 fd.2 * 4 := Nat.mod_le _ _
  have h2 : (16 + (mulU32 fd.1 fd.2 * 4) % sizeT) % sizeT
      ≤ 16 + (mulU32 fd.1 fd.2 * 4) % sizeT := Nat.mod_le _ _
  omega

/-- The file created holds fewer than `2 ^ 32` samples, whatever the width of
`size_t`. -/
theorem payloadLength_lt (sizeT : Nat) (fd : UInt2) : payloadLength sizeT fd < 4294967296 := by
  have hm : mulU32 fd.1 fd.2 < 4294967296 := Nat.mod_lt _ (by decide)
  unfold payloadLength resultSize sizeofHeader sizeofFloat
  have h1 : (mulU32 fd.1 fd.2 * 4) % sizeT ≤ mulU32 fd.1 fd.2 * 4 := Nat.mod_le _ _
  have h2 : (16 + (mulU32 fd.1 fd.2 * 4) % sizeT) % sizeT
      ≤ 16 + (mulU32 fd.1 fd.2 * 4) % sizeT := Nat.mod_le _ _
  omega

theorem applyTrace_some_valid {α : Type} (zero : α) (inp : Nat → α) (strips : Nat → List α) :
    ∀ (tr : List Event) (o r : Nat → α), applyTrace zero inp strips tr o = some r →
      ∀ e ∈ tr, e.validRange = true := by
  intro tr
  induction tr with
  | nil => intro o r _ e he; exact absurd he (List.not_mem_nil e)
  | cons a t ih =>
    intro o r h e he
    simp only [applyTrace] at h
    cases ha : applyEvent zero inp strips a o with
    | none => rw [ha] at h; simp at h
    | some o1 =>
      rw [ha] at h
      simp only [Option.some_bind] at h
      rcases List.mem_cons.mp he with rfl | hmem
      · cases e <;> simp_all [applyEvent, Event.validRange]
      · exact ih o1 r h e hmem

/-- After one event two output arrays agree at an index at which they agreed
before or which the event writes. -/
theorem applyEvent_agree {α : Type} (zero : α) (inp : Nat → α) (strips : Nat → List α)
    (e : Event) (o1 o2 r1 r2 : Nat → α) (i : Nat)
    (h1 : applyEvent zero inp strips e o1 = some r1)
    (h2 : applyEvent zero inp strips e o2 = some r2)
    (h : o1 i = o2 i ∨ e.covers (fun s => (strips s).length) i = true) : r1 i = r2 i := by
  cases e with
  | copy f l d =>
    simp only [applyEvent] at h1 h2
    split at h1
    · simp only [Option.some.injEq] at h1 h2
      rename_i hfl
      rw [if_pos hfl] at h2
      simp only [Option.some.injEq] at h2
      subst h1 h2
      simp only [Event.covers, decide_eq_true_eq] at h
      by_cases hc : d ≤ i ∧ i < d + (l - f)
      · simp only [if_pos hc]
      · simp only [if_neg hc]
        rcases h with h | h
        · exact h
        · exact absurd h hc
    · cases h1
  | fill f l =>
    simp only [applyEvent] at h1 h2
    split at h1
    · simp only [Option.some.injEq] at h1 h2
      rename_i hfl
      rw [if_pos hfl] at h2
      simp only [Option.some.injEq] at h2
      subst h1 h2
      simp only [Event.covers, decide_eq_true_eq] at h
      by_cases hc : f ≤ i ∧ i < l
      · simp only [if_pos hc]
      · simp only [if_neg hc]
        rcases h with h | h
        · exact h
        · exact absurd h hc
    · cases h1
  | decodeStrip s d =>
    simp only [applyEvent, Option.some.injEq] at h1 h2
    subst h1 h2
    simp only [Event.covers, decide_eq_true_eq] at h
    by_cases hc : d ≤ i ∧ i < d + (strips s).length
    · simp only [if_pos hc]
    · simp only [if_neg hc]
      rcases h with h | h
      · exact h
      · exact absurd h hc
  | beginStep u r =>
    simp only [applyEvent, Option.some.injEq] at h1 h2
    subst h1 h2
    simpa [Event.covers] using h
  | advance =>
    simp only [applyEvent, Option.some.injEq] at h1 h2
    subst h1 h2
    simpa [Event.covers] using h
  | createDirectory =>
    simp only [applyEvent, Option.some.injEq] at h1 h2
    subst h1 h2
    simpa [Event.covers] using h
  | createFile sz =>
    simp only [applyEvent, Option.some.injEq] at h1 h2
    subst h1 h2
    simpa [Event.covers] using h
  | writeHeader hd =>
    simp only [applyEvent, Option.some.injEq] at h1 h2
    subst h1 h2
    simpa [Event.covers] using h

/-- After a trace two output arrays agree at an index at which they agreed before
or which one of the events writes. -/
theorem applyTrace_agree {α : Type} (zero : α) (inp : Nat → α) (strips : Nat → List α)
    (i : Nat) :
    ∀ (tr : List Event) (o1 o2 r1 r2 : Nat → α),
      applyTrace zero inp strips tr o1 = some r1 → applyTrace zero inp strips tr o2 = some r2 →
      (o1 i = o2 i ∨ ∃ e ∈ tr, e.covers (fun s => (strips s).length) i = true) →
      r1 i = r2 i := by
  intro tr
  induction tr with
  | nil =>
    intro o1 o2 r1 r2 h1 h2 h
    simp only [applyTrace, Option.some.injEq] at h1 h2
    subst h1 h2
    rcases h with h | ⟨e, he, -⟩
    · exact h
    · exact absurd he (List.not_mem_nil e)
  | cons a t ih =>
    intro o1 o2 r1 r2 h1 h2 h
    simp only [applyTrace] at h1 h2
    cases ha1 : applyEvent zero inp strips a o1 with
    | none => rw [ha1] at h1; simp at h1
    | some p1 =>
      cases ha2 : applyEvent zero inp strips a o2 with
      | none => rw [ha2] at h2; simp at h2
      | some p2 =>
        rw [ha1] at h1
        rw [ha2] at h2
        simp only [Option.some_bind] at h1 h2
        by_cases hnow : o1 i = o2 i ∨ a.covers (fun s => (strips s).length) i = true
        · exact ih p1 p2 r1 r2 h1 h2
            (Or.inl (applyEvent_agree zero inp strips a o1 o2 p1 p2 i ha1 ha2 hnow))
        · rcases h with h | ⟨e, he, hcov⟩
          · exact absurd (Or.inl h) hnow
          · rcases List.mem_cons.mp he with rfl | hmem
            · exact absurd (Or.inr hcov) hnow
            · exact ih p1 p2 r1 r2 h1 h2 (Or.inr ⟨e, hmem, hcov⟩)

/-- In a list of writes of the header path all of whose ranges are valid and lie
within `P < 2 ^ 32` output elements, the events of output row `y` write the `V`
elements from `mulU32 y V` on, and these lie within the `P` elements. -/
theorem row_segment_within (stripLen : Nat → Nat) (W H V H1 P : Nat)
    (hVlt : V < 4294967296) (hP : P < 4294967296)
    (hvalid : ∀ e ∈ (List.range' 0 (min H1 H)).map (copyRow W V) ++ paddingFill (W, H) (V, H1),
      e.validRange = true)
    (hwithin : ∀ e ∈ (List.range' 0 (min H1 H)).map (copyRow W V)
      ++ paddingFill (W, H) (V, H1), e.writesWithin stripLen P = true)
    (y : Nat) (hy : y < H1) : mulU32 y V + V ≤ P := by
  have hd : mulU32 y V < 4294967296 := Nat.mod_lt _ (by decide)
  have hf : mulU32 y W < 4294967296 := Nat.mod_lt _ (by decide)
  by_cases hyH : y < H
  · have hcopy : copyRow W V y ∈ (List.range' 0 (min H1 H)).map (copyRow W V)
        ++ paddingFill (W, H) (V, H1) :=
      List.mem_append_left _ (List.mem_map.mpr ⟨y, List.mem_range'_1.mpr
        ⟨Nat.zero_le y, by rw [Nat.zero_add]; exact Nat.lt_min.mpr ⟨hy, hyH⟩⟩, rfl⟩)
    have hv := hvalid _ hcopy
    have hw := hwithin _ hcopy
    simp only [copyRow, Event.validRange, Event.writesWithin, decide_eq_true_eq, addU32] at hv hw
    by_cases hVW : V ≤ W
    · rw [Nat.min_eq_right hVW] at hv hw
      omega
    · have hWV : W ≤ V := by omega
      rw [Nat.min_eq_left hWV] at hv hw
      have hfill : fillRowTail W V y ∈ (List.range' 0 (min H1 H)).map (copyRow W V)
          ++ paddingFill (W, H) (V, H1) := by
        apply List.mem_append_right
        rw [paddingFill_eq_rows]
        apply List.mem_append_left
        rw [if_pos (by omega : V > W)]
        exact List.mem_map.mpr ⟨y, List.mem_range.mpr hyH, rfl⟩
      have hv2 := hvalid _ hfill
      have hw2 := hwithin _ hfill
      simp only [fillRowTail, Event.validRange, Event.writesWithin, decide_eq_true_eq, addU32]
        at hv2 hw2
      omega
  · have hfill : fillRow V y ∈ (List.range' 0 (min H1 H)).map (copyRow W V)
        ++ paddingFill (W, H) (V, H1) := by
      apply List.mem_append_right
      rw [paddingFill_eq_rows]
      apply List.mem_append_right
      exact List.mem_map.mpr ⟨y, List.mem_range'_1.mpr ⟨by omega, by omega⟩, rfl⟩
    have hv2 := hvalid _ hfill
    have hw2 := hwithin _ hfill
    simp only [fillRow, Event.validRange, Event.writesWithin, decide_eq_true_eq, addU32]
      at hv2 hw2
    omega

/-- Under the same conditions no row index of the output wraps: row `y` ends at
`y * V + V`, within the `P` elements. -/
theorem rows_exact (stripLen : Nat → Nat) (W H V H1 P : Nat)
    (hVlt : V < 4294967296) (hP : P < 4294967296)
    (hvalid : ∀ e ∈ (List.range' 0 (min H1 H)).map (copyRow W V) ++ paddingFill (W, H) (V, H1),
      e.validRange = true)
    (hwithin : ∀ e ∈ (List.range' 0 (min H1 H)).map (copyRow W V)
      ++ paddingFill (W, H) (V, H1), e.writesWithin stripLen P = true) :
    ∀ y, y < H1 → mulU32 y V = y * V ∧ y * V + V ≤ P := by
  intro y
  induction y with
  | zero =>
    intro hy
    have h := row_segment_within stripLen W H V H1 P hVlt hP hvalid hwithin 0 hy
    have h0 : mulU32 0 V = 0 := by simp [mulU32]
    rw [h0] at h
    exact ⟨by rw [h0, Nat.zero_mul], by rw [Nat.zero_mul]; exact h⟩
  | succ y ih =>
    intro hy
    obtain ⟨-, hprev⟩ := ih (by omega)
    have hexp : (y + 1) * V = y * V + V := by ring
    have hm : mulU32 (y + 1) V = (y + 1) * V := by
      unfold mulU32
      exact Nat.mod_eq_of_lt (by omega)
    have h := row_segment_within stripLen W H V H1 P hVlt hP hvalid hwithin (y + 1) hy
    rw [hm] at h
    exact ⟨hm, h⟩

/-- Under the same conditions every element of the `V` x `H1` payload is written
by one of the events. -/
theorem payload_covered (stripLen : Nat → Nat) (W H V H1 P : Nat)
    (hVlt : V < 4294967296) (hP : P < 4294967296)
    (hvalid : ∀ e ∈ (List.range' 0 (min H1 H)).map (copyRow W V) ++ paddingFill (W, H) (V, H1),
      e.validRange = true)
    (hwithin : ∀ e ∈ (List.range' 0 (min H1 H)).map (copyRow W V)
      ++ paddingFill (W, H) (V, H1), e.writesWithin stripLen P = true)
    (x y : Nat) (hx : x < V) (hy : y < H1) :
    ∃ e ∈ (List.range' 0 (min H1 H)).map (copyRow W V) ++ paddingFill (W, H) (V, H1),
      e.covers stripLen (y * V + x) = true := by
  obtain ⟨hm, hend⟩ := rows_exact stripLen W H V H1 P hVlt hP hvalid hwithin y hy
  have hf : mulU32 y W < 4294967296 := Nat.mod_lt _ (by decide)
  by_cases hyH : y < H
  · have hcopy : copyRow W V y ∈ (List.range' 0 (min H1 H)).map (copyRow W V)
        ++ paddingFill (W, H) (V, H1) :=
      List.mem_append_left _ (List.mem_map.mpr ⟨y, List.mem_range'_1.mpr
        ⟨Nat.zero_le y, by rw [Nat.zero_add]; exact Nat.lt_min.mpr ⟨hy, hyH⟩⟩, rfl⟩)
    have hv := hvalid _ hcopy
    simp only [copyRow, Event.validRange, decide_eq_true_eq, addU32] at hv
    by_cases hxW : x < min W V
    · refine ⟨_, hcopy, ?_⟩
      simp only [copyRow, Event.covers, decide_eq_true_eq, addU32, hm]
      omega
    · have hWV : W < V := by
        rcases Nat.le_total W V with h | h
        · rw [Nat.min_eq_left h] at hxW
          omega
        · rw [Nat.min_eq_right h] at hxW
          omega
      rw [Nat.min_eq_left (Nat.le_of_lt hWV)] at hxW
      have hfill : fillRowTail W V y ∈ (List.range' 0 (min H1 H)).map (copyRow W V)
          ++ paddingFill (W, H) (V, H1) := by
        apply List.mem_append_right
        rw [paddingFill_eq_rows]
        apply List.mem_append_left
        rw [if_pos hWV]
        exact List.mem_map.mpr ⟨y, List.mem_range.mpr hyH, rfl⟩
      refine ⟨_, hfill, ?_⟩
      simp only [fillRowTail, Event.covers, decide_eq_true_eq, addU32, hm]
      omega
  · have hfill : fillRow V y ∈ (List.range' 0 (min H1 H)).map (copyRow W V)
        ++ paddingFill (W, H) (V, H1) := by
      apply List.mem_append_right
      rw [paddingFill_eq_rows]
      apply List.mem_append_right
      exact List.mem_map.mpr ⟨y, List.mem_range'_1.mpr ⟨by omega, by omega⟩, rfl⟩
    refine ⟨_, hfill, ?_⟩
    simp only [fillRow, Event.covers, decide_eq_true_eq, addU32, hm]
    omega

/-- C11: in every run of `ConvertDEMData` on a header source that returns normally
and has defined behaviour (every copy and fill has a valid range, and every write
lies within the samples of the file created), the four fields of the header are
assigned, the file holds exactly the `W' * H'` samples of the payload, and each
of these samples has the same value whatever the output array held before: two
runs on the same inputs leave the same header and the same payload. -/
theorem output_independent_of_prior_contents {α : Type} (zero : α) (inp : Nat → α)
    (strips : Nat → List α) (outA outB resA resB : Nat → α)
    (fuel : Nat) (XlAtoI32 : List Char → Int) (sizeT : Nat)
    (input : InputFile) (outputValid : Bool) (N D : Nat) (progress : Option (Nat → Bool))
    (W H : Nat) (run : Run) (ret : UInt2)
    (hext : isHdrExt input.ext = true) (hdims : DEMConfig XlAtoI32 input = (W, H))
    (hrun : ConvertDEMData fuel XlAtoI32 sizeT input outputValid N D progress = some run)
    (hok : run.result = .ok ret)
    (hwithin : ∀ e ∈ run.trace, e.writesWithin (fun s => (strips s).length)
      (payloadLength sizeT (finalDims (W, H) (clampingDim N D))) = true)
    (hA : applyTrace zero inp strips run.trace outA = some resA)
    (hB : applyTrace zero inp strips run.trace outB = some resB) :
    writtenHeader run.trace = some ⟨TerrainUberHeader.Magic,
      (finalDims (W, H) (clampingDim N D)).1, (finalDims (W, H) (clampingDim N D)).2, 0⟩ ∧
    (finalDims (W, H) (clampingDim N D)).1 * (finalDims (W, H) (clampingDim N D)).2
      = payloadLength sizeT (finalDims (W, H) (clampingDim N D)) ∧
    ∀ i, i < (finalDims (W, H) (clampingDim N D)).1 * (finalDims (W, H) (clampingDim N D)).2 →
      resA i = resB i := by
  obtain ⟨-, -, rest, htr⟩ :=
    convert_ok_shape fuel XlAtoI32 sizeT input outputValid N D progress run ret hrun hok
  rw [hdims] at htr
  have hhdr : writtenHeader run.trace = some ⟨TerrainUberHeader.Magic,
      (finalDims (W, H) (clampingDim N D)).1, (finalDims (W, H) (clampingDim N D)).2, 0⟩ := by
    rw [htr]
    exact writtenHeader_prologue _ _ _ _
  have hwr := convert_hdr_ok_writes_min fuel XlAtoI32 sizeT input outputValid N D progress W H
    run ret hext hdims hrun hok
  have hWlt : W < 4294967296 := by
    have := (DEMConfig_lt XlAtoI32 input).1
    rw [hdims] at this
    exact this
  have hVlt : (finalDims (W, H) (clampingDim N D)).1 < 4294967296 := padDim_lt hWlt
  have hP := payloadLength_lt sizeT (finalDims (W, H) (clampingDim N D))
  have hPle := payloadLength_le sizeT (finalDims (W, H) (clampingDim N D))
  have hvalidAll := applyTrace_some_valid zero inp strips run.trace outA resA hA
  generalize payloadLength sizeT (finalDims (W, H) (clampingDim N D)) = P at hwithin hP hPle ⊢
  generalize finalDims (W, H) (clampingDim N D) = fd at hwr hVlt hwithin hhdr hPle ⊢
  obtain ⟨V, H1⟩ := fd
  simp only at hwr hVlt hwithin hhdr hPle ⊢
  have hsub : ∀ e ∈ (List.range' 0 (min H1 H)).map (copyRow W V) ++ paddingFill (W, H) (V, H1),
      e ∈ run.trace := by
    intro e he
    rw [← hwr] at he
    exact (List.mem_filter.mp he).1
  have hv : ∀ e ∈ (List.range' 0 (min H1 H)).map (copyRow W V) ++ paddingFill (W, H) (V, H1),
      e.validRange = true := fun e he => hvalidAll e (hsub e he)
  have hw : ∀ e ∈ (List.range' 0 (min H1 H)).map (copyRow W V) ++ paddingFill (W, H) (V, H1),
      e.writesWithin (fun s => (strips s).length) P = true := fun e he => hwithin e (hsub e he)
  have hsize : V * H1 ≤ P := by
    rcases Nat.eq_zero_or_pos H1 with h0 | hpos
    · rw [h0, Nat.mul_zero]
      exact Nat.zero_le P
    · obtain ⟨-, hend⟩ := rows_exact _ W H V H1 P hVlt hP hv hw (H1 - 1) (by omega)
      have hexp : (H1 - 1) * V + V = V * H1 := by
        have : H1 = (H1 - 1) + 1 := by omega
        conv_rhs => rw [this]
        ring
      omega
  have hexact : V * H1 = P := by
    have hmod : mulU32 V H1 ≤ V * H1 := Nat.mod_le _ _
    omega
  refine ⟨hhdr, hexact, ?_⟩
  intro i hi
  have hVpos : 0 < V := by
    rcases Nat.eq_zero_or_pos V with h0 | h0
    · rw [h0, Nat.zero_mul] at hi
      omega
    · exact h0
  have hy : i / V < H1 := Nat.div_lt_of_lt_mul hi
  have hx : i % V < V := Nat.mod_lt _ hVpos
  obtain ⟨e, he, hcov⟩ := payload_covered _ W H V H1 P hVlt hP hv hw (i % V) (i / V) hx hy
  have hidx : i / V * V + i % V = i := by
    rw [Nat.mul_comm]
    exact Nat.div_add_mod i V
  rw [hidx] at hcov
  exact applyTrace_agree zero inp strips i run.trace outA outB resA resB hA hB
    (Or.inr ⟨e, hsub e he, hcov⟩)

/-- C11 on a 3 x 3 header source with nodeDim 4 and depth 1, started once on an
output array holding 9 everywhere and once on one holding 5 everywhere: the 16
samples of the payload end up the same. -/
theorem output_independent_of_prior_contents_witness :
    writtenHeader (hdrPrologue none 18446744073709551616 (4, 4) 3 ++ []
        ++ remainderLoop 3 4 3 0 ++ paddingFill (3, 3) (4, 4))
      = some ⟨TerrainUberHeader.Magic,
        (finalDims (3, 3) (clampingDim 4 1)).1, (finalDims (3, 3) (clampingDim 4 1)).2, 0⟩ ∧
    (finalDims (3, 3) (clampingDim 4 1)).1 * (finalDims (3, 3) (clampingDim 4 1)).2
      = payloadLength 18446744073709551616 (finalDims (3, 3) (clampingDim 4 1)) ∧
    ∀ i, i < (finalDims (3, 3) (clampingDim 4 1)).1 * (finalDims (3, 3) (clampingDim 4 1)).2 →
      ((applyTrace (0 : Nat) (fun j => j + 1) (fun _ => [])
          (hdrPrologue none 18446744073709551616 (4, 4) 3 ++ []
            ++ remainderLoop 3 4 3 0 ++ paddingFill (3, 3) (4, 4)) (fun _ => 9)).getD
        (fun _ => 0)) i
      = ((applyTrace (0 : Nat) (fun j => j + 1) (fun _ => [])
          (hdrPrologue none 18446744073709551616 (4, 4) 3 ++ []
            ++ remainderLoop 3 4 3 0 ++ paddingFill (3, 3) (4, 4)) (fun _ => 5)).getD
        (fun _ => 0)) i :=
  output_independent_of_prior_contents (0 : Nat) (fun j => j + 1) (fun _ => [])
    (fun _ => 9) (fun _ => 5) _ _ 1 (fun _ => 3) 18446744073709551616
    ⟨some "hdr".toList, "ncols 3\nnrows 3\n".toList, none, true⟩ true 4 1 none 3 3
    ⟨hdrPrologue none 18446744073709551616 (4, 4) 3 ++ []
      ++ remainderLoop 3 4 3 0 ++ paddingFill (3, 3) (4, 4), .ok (1, 1)⟩ (1, 1)
    (by decide) (by decide) (by rfl) rfl (by decide) (by rfl) (by rfl)

end ToolsRig
